import Mathlib

/-!
Shallow embedding of the tabular data-processing engine (DataProcessor in
the dataProcessor module, plus parseCSV / analyzeFields from the file-upload
component) and proofs about it.

Modelling conventions:
* JavaScript strings are modelled as `List Char` (`Str`).
* JavaScript numbers are modelled as `ℚ`; `NaN` is represented by `Option.none`
  at the points where it arises (`parseFloat`, `Number`, `Date.getTime`).
  The model covers decimal literals (sign, decimal point, exponent); the
  special forms `Infinity` and hexadecimal literals are treated as unparsable.
* JavaScript `Date` parsing is modelled for the ISO `YYYY-MM-DD` and slash
  `MM/DD/YYYY` forms (the formats this application produces and recognises);
  all other inputs are treated as invalid dates.
* A JavaScript object (row) is an association list `List (Str × Value)`;
  property assignment `row[k] = v` is `setKey`, which overwrites in place or
  appends, matching object key semantics.  Reading an absent key yields
  `undefined` (`Value.vUndef`).
* `Array.prototype.sort` is modelled as the stable `List.mergeSort`; the
  ECMAScript coercion of a `NaN` comparator result to `+0` is explicit in
  `rowCompare`.
* `toLowerCase` and `localeCompare` are modelled at the code-unit level
  (ASCII case mapping, lexicographic comparison).
-/

abbrev Str := List Char

/-- JavaScript cell values: `null`, `undefined`, strings, numbers, booleans. -/
inductive Value where
  | vNull : Value
  | vUndef : Value
  | vStr : Str → Value
  | vNum : ℚ → Value
  | vBool : Bool → Value
deriving DecidableEq, Repr

instance : Inhabited Value := ⟨.vUndef⟩

/-- The "missing" test used throughout the source:
`value === null || value === undefined || value === ''`. -/
def isMissing : Value → Bool
  | .vNull => true
  | .vUndef => true
  | .vStr s => s.isEmpty
  | _ => false

/-- JavaScript truthiness on cell values (`value ||` fallback).
`null`, `undefined`, the empty string, `0` and `false` are falsy. -/
def jsFalsy : Value → Bool
  | .vNull => true
  | .vUndef => true
  | .vStr s => s.isEmpty
  | .vNum q => q = 0
  | .vBool b => !b

/-- Whitespace recognised by `trim` (ASCII subset of the JS WhiteSpace set). -/
def isWS (c : Char) : Bool :=
  c = ' ' || c = '\t' || c = '\n' || c = '\r'

/-- `String.prototype.trim`: drop whitespace from both ends. -/
def jsTrim (s : Str) : Str :=
  ((s.dropWhile isWS).reverse.dropWhile isWS).reverse

/-- ASCII case-folding for `toLowerCase`. -/
def charLower (c : Char) : Char :=
  if 'A' ≤ c ∧ c ≤ 'Z' then Char.ofNat (c.toNat + 32) else c

def jsToLower (s : Str) : Str := s.map charLower

/-- Decimal digit character for `n % 10`. -/
def dChar (n : ℕ) : Char :=
  match n % 10 with
  | 0 => '0' | 1 => '1' | 2 => '2' | 3 => '3' | 4 => '4'
  | 5 => '5' | 6 => '6' | 7 => '7' | 8 => '8' | _ => '9'

def isDigit (c : Char) : Bool := 48 ≤ c.toNat && c.toNat ≤ 57

def digitVal (c : Char) : ℕ := c.toNat - 48

/-- Numeric value of a digit string (most significant first). -/
def valOfDigits (ds : List ℕ) : ℕ := ds.foldl (fun a d => 10 * a + d) 0

/-- Render a natural number in decimal. -/
def natStr (n : ℕ) : Str := (Nat.repr n).data

def intStr (i : ℤ) : Str :=
  if i < 0 then '-' :: natStr i.natAbs else natStr i.natAbs

/-- Decimal expansion of a fraction `num/den` with `num < den`, emitting up
to `fuel` digits and stopping when the remainder reaches zero. -/
def fracDigits : ℕ → ℕ → ℕ → Str
  | 0, _, _ => []
  | _, 0, _ => []
  | fuel + 1, num, den => dChar (num * 10 / den) :: fracDigits fuel (num * 10 % den) den

/-- Render a rational the way JS renders the corresponding number
(integers without a point, otherwise a decimal expansion; a truncated
approximation for rationals without a finite expansion). -/
def ratToStr (q : ℚ) : Str :=
  if q.den = 1 then intStr q.num
  else
    (if q.num < 0 then ['-'] else []) ++
      natStr (q.num.natAbs / q.den) ++ '.' :: fracDigits 20 (q.num.natAbs % q.den) q.den

/-- String conversion `String(v)` for each value shape. -/
def jsToString : Value → Str
  | .vNull => "null".data
  | .vUndef => "undefined".data
  | .vStr s => s
  | .vBool true => "true".data
  | .vBool false => "false".data
  | .vNum q => ratToStr q

/-! Number parsing: `parseFloat` (longest numeric prefix) and `Number`
(full-string conversion). -/

/-- Split a leading run of decimal digits off a string. -/
def takeDigits : Str → (List ℕ × Str)
  | [] => ([], [])
  | c :: cs =>
    if isDigit c then
      let (ds, r) := takeDigits cs
      (digitVal c :: ds, r)
    else ([], c :: cs)

/-- Optional sign; returns the sign factor and the rest. -/
def takeSign : Str → (ℚ × Str)
  | '-' :: cs => (-1, cs)
  | '+' :: cs => (1, cs)
  | s => (1, s)

/-- Parse an exponent part `e±ddd` if present; returns the exponent and the
rest.  An incomplete exponent (no digits) is not consumed. -/
def takeExp : Str → (ℤ × Str)
  | c :: cs =>
    if c = 'e' ∨ c = 'E' then
      match cs with
      | '-' :: cs' =>
        let (ds, r) := takeDigits cs'
        if ds.isEmpty then (0, c :: cs) else (-(valOfDigits ds : ℤ), r)
      | '+' :: cs' =>
        let (ds, r) := takeDigits cs'
        if ds.isEmpty then (0, c :: cs) else ((valOfDigits ds : ℤ), r)
      | cs' =>
        let (ds, r) := takeDigits cs'
        if ds.isEmpty then (0, c :: cs) else ((valOfDigits ds : ℤ), r)
    else (0, c :: cs)
  | [] => (0, [])

/-- Parse the longest decimal-literal prefix of a string (after an optional
sign): `digits [. digits] [exp]` or `. digits [exp]`.  Returns the value and
the unconsumed rest, or `none` if there is no numeric prefix. -/
def parseDecCore (s : Str) : Option (ℚ × Str) :=
  let (sgn, s1) := takeSign s
  let (ip, s2) := takeDigits s1
  let (fp, s3) :=
    match s2 with
    | '.' :: cs => takeDigits cs
    | _ => ([], s2)
  if ip.isEmpty ∧ fp.isEmpty then none
  else
    let (ex, s4) := takeExp s3
    let mantissa : ℚ := (valOfDigits ip : ℚ) + (valOfDigits fp : ℚ) / ((10 : ℚ) ^ fp.length)
    some (sgn * mantissa * (10 : ℚ) ^ ex, s4)

/-- `parseFloat` on a string: skip leading whitespace, then take the longest
numeric prefix; `none` models `NaN`. -/
def strParseFloat (s : Str) : Option ℚ :=
  (parseDecCore (s.dropWhile isWS)).map Prod.fst

/-- `parseFloat(v)`: the argument is first converted with `String(...)`. -/
def jsParseFloat (v : Value) : Option ℚ :=
  match v with
  | .vNum q => some q
  | v => strParseFloat (jsToString v)

/-- `Number` conversion of a string: trim, empty means `0`, otherwise the
whole remaining string must be a numeric literal; `none` models `NaN`. -/
def strToNumber (s : Str) : Option ℚ :=
  let t := jsTrim s
  if t.isEmpty then some 0
  else
    match parseDecCore t with
    | some (q, []) => some q
    | _ => none

/-- `Number(v)` (`ToNumber`) for each value shape; `none` models `NaN`. -/
def jsToNumber : Value → Option ℚ
  | .vNull => some 0
  | .vUndef => none
  | .vBool b => some (if b then 1 else 0)
  | .vNum q => some q
  | .vStr s => strToNumber s

/-- Loose equality `==`.  Booleans are converted to numbers; a number and a
string are compared after `ToNumber` on the string; `null` and `undefined`
equal only each other. -/
def jsLooseEq : Value → Value → Bool
  | .vNull, .vNull => true
  | .vNull, .vUndef => true
  | .vUndef, .vNull => true
  | .vUndef, .vUndef => true
  | .vNum a, .vNum b => a = b
  | .vStr a, .vStr b => a = b
  | .vBool a, .vBool b => a = b
  | .vNum a, .vStr s => match strToNumber s with | some b => a = b | none => false
  | .vStr s, .vNum b => match strToNumber s with | some a => a = b | none => false
  | .vBool a, .vNum b => (if a then (1 : ℚ) else 0) = b
  | .vNum a, .vBool b => a = (if b then (1 : ℚ) else 0)
  | .vBool a, .vStr s =>
    (match strToNumber s with | some b => (if a then (1 : ℚ) else 0) = b | none => false)
  | .vStr s, .vBool b =>
    (match strToNumber s with | some a => a = (if b then (1 : ℚ) else 0) | none => false)
  | _, _ => false

/-! Date parsing and formatting.  `new Date(value)` is modelled for the ISO
date-only form `YYYY-MM-DD` and the slash form `MM/DD/YYYY`; all other
inputs count as invalid dates. -/

structure YMD where
  y : ℕ
  m : ℕ
  d : ℕ
deriving DecidableEq, Repr

def isLeap (y : ℕ) : Bool :=
  (y % 4 = 0 && y % 100 ≠ 0) || y % 400 = 0

def daysInMonth (y m : ℕ) : ℕ :=
  if m = 2 then (if isLeap y then 29 else 28)
  else if m = 4 ∨ m = 6 ∨ m = 9 ∨ m = 11 then 30
  else 31

def validYMD (y m d : ℕ) : Bool :=
  1 ≤ m && m ≤ 12 && 1 ≤ d && d ≤ daysInMonth y m

/-- Parse `YYYY-MM-DD` (exact shape, in-range month and day). -/
def parseISODate : Str → Option YMD
  | [a, b, c, d, s1, e, f, s2, g, h] =>
    if s1 = '-' ∧ s2 = '-' ∧ isDigit a ∧ isDigit b ∧ isDigit c ∧ isDigit d ∧
       isDigit e ∧ isDigit f ∧ isDigit g ∧ isDigit h then
      if validYMD (valOfDigits [digitVal a, digitVal b, digitVal c, digitVal d])
          (valOfDigits [digitVal e, digitVal f]) (valOfDigits [digitVal g, digitVal h]) then
        some ⟨valOfDigits [digitVal a, digitVal b, digitVal c, digitVal d],
          valOfDigits [digitVal e, digitVal f], valOfDigits [digitVal g, digitVal h]⟩
      else none
    else none
  | _ => none

/-- Parse `MM/DD/YYYY` (exact shape, in-range month and day). -/
def parseSlashDate : Str → Option YMD
  | [a, b, s1, c, d, s2, e, f, g, h] =>
    if s1 = '/' ∧ s2 = '/' ∧ isDigit a ∧ isDigit b ∧ isDigit c ∧ isDigit d ∧
       isDigit e ∧ isDigit f ∧ isDigit g ∧ isDigit h then
      if validYMD (valOfDigits [digitVal e, digitVal f, digitVal g, digitVal h])
          (valOfDigits [digitVal a, digitVal b]) (valOfDigits [digitVal c, digitVal d]) then
        some ⟨valOfDigits [digitVal e, digitVal f, digitVal g, digitVal h],
          valOfDigits [digitVal a, digitVal b], valOfDigits [digitVal c, digitVal d]⟩
      else none
    else none
  | _ => none

/-- `new Date(v)`: valid only for strings in one of the two modelled forms. -/
def jsParseDate (v : Value) : Option YMD :=
  match v with
  | .vStr s =>
    match parseISODate s with
    | some d => some d
    | none => parseSlashDate s
  | _ => none

/-- Chronological key of a date: strictly monotone in calendar order for
valid dates, so differences have the same sign as `getTime()` differences. -/
def dateKey (d : YMD) : ℚ := (d.y * 10000 + d.m * 100 + d.d : ℕ)

def pad2 (n : ℕ) : Str := [dChar (n / 10), dChar n]

def pad4 (n : ℕ) : Str := [dChar (n / 1000), dChar (n / 100), dChar (n / 10), dChar n]

/-- `toISOString().split('T')[0]`: the `YYYY-MM-DD` rendering of a date. -/
def formatISO (d : YMD) : Str :=
  pad4 d.y ++ '-' :: pad2 d.m ++ '-' :: pad2 d.d

/-! Rows and field descriptors. -/

inductive FType where
  | number : FType
  | string : FType
  | date : FType
deriving DecidableEq, Repr

structure FieldInfo where
  name : Str
  type : FType
deriving DecidableEq, Repr

/-- A row: a JavaScript object, keys in insertion order. -/
abbrev Row := List (Str × Value)

/-- First-match association lookup (JS object keys are unique, so the first
match is the only one). -/
def lookupKey (k : Str) : List (Str × Value) → Option Value
  | [] => none
  | (k', v) :: r => if k' = k then some v else lookupKey k r

/-- Property read `row[k]`: an absent key yields `undefined`. -/
def getCell (row : Row) (k : Str) : Value :=
  match lookupKey k row with
  | some v => v
  | none => (.vUndef)

/-- Property write `row[k] = v`: overwrite in place if the key exists,
otherwise append (JS object insertion-order semantics). -/
def setKey : Row → Str → Value → Row
  | [], k, v => [(k, v)]
  | p :: r, k, v => if p.1 = k then (p.1, v) :: r else p :: setKey r k v

/-- First-occurrence deduplication, as `Object.keys` produces keys (for a
genuine JS object the keys are already distinct and this is the identity). -/
def dedupAux : List Str → List Str → List Str
  | _, [] => []
  | seen, k :: ks => if k ∈ seen then dedupAux seen ks else k :: dedupAux (k :: seen) ks

def dedupKeys (ks : List Str) : List Str := dedupAux [] ks

/-- Keys of a row in first-occurrence order, as `Object.keys` returns them. -/
def keysOf (row : Row) : List Str :=
  dedupKeys (row.map Prod.fst)

/-! Filter engine (`DataProcessor.filter`). -/

inductive FilterOp where
  | equals : FilterOp
  | contains : FilterOp
  | greater : FilterOp
  | less : FilterOp
  | between : FilterOp
  | notEmpty : FilterOp
deriving DecidableEq, Repr

structure FilterCondition where
  field : Str
  op : FilterOp
  value : Value
  value2 : Value := .vUndef
deriving DecidableEq, Repr

/-- Substring test `String.prototype.includes`. -/
def strIncludes (hay needle : Str) : Bool :=
  decide (needle <:+: hay)

/-- Evaluation of one filter condition on a row, per the `switch` in
`DataProcessor.filter`.  A `NaN` on either side of a numeric comparison
makes the comparison false. -/
def evalCond (row : Row) (c : FilterCondition) : Bool :=
  let value := getCell row c.field
  match c.op with
  | .equals => jsLooseEq value c.value
  | .contains => strIncludes (jsToLower (jsToString value)) (jsToLower (jsToString c.value))
  | .greater =>
    match jsParseFloat value, jsParseFloat c.value with
    | some a, some b => a > b
    | _, _ => false
  | .less =>
    match jsParseFloat value, jsParseFloat c.value with
    | some a, some b => a < b
    | _, _ => false
  | .between =>
    (match jsParseFloat value, jsParseFloat c.value with
     | some a, some b => a ≥ b
     | _, _ => false) &&
    (match jsParseFloat value, jsParseFloat c.value2 with
     | some a, some b => a ≤ b
     | _, _ => false)
  | .notEmpty => !isMissing value

/-- `filter(conditions)`: keep the rows satisfying every condition. -/
def filterRows (data : List Row) (conditions : List FilterCondition) : List Row :=
  data.filter (fun row => conditions.all (evalCond row))

/-! Sort engine (`DataProcessor.sort`). -/

inductive SortDir where
  | asc : SortDir
  | desc : SortDir
deriving DecidableEq, Repr

structure SortCondition where
  field : Str
  dir : SortDir
deriving DecidableEq, Repr

/-- Code-unit lexicographic comparison standing in for `localeCompare`:
`-1`, `0` or `1`. -/
def lexCompare : Str → Str → ℚ
  | [], [] => 0
  | [], _ :: _ => -1
  | _ :: _, [] => 1
  | a :: as, b :: bs =>
    if a = b then lexCompare as bs
    else if a < b then -1 else 1

/-- Per-condition comparison of two rows; `none` models a `NaN` result
(unparsable number or invalid date on either side). -/
def fieldCompare (fields : List FieldInfo) (c : SortCondition) (a b : Row) : Option ℚ :=
  match (fields.find? (fun f => f.name = c.field)).map FieldInfo.type with
  | some .number =>
    match jsParseFloat (getCell a c.field), jsParseFloat (getCell b c.field) with
    | some x, some y => some (x - y)
    | _, _ => none
  | some .date =>
    match (jsParseDate (getCell a c.field)).map dateKey,
        (jsParseDate (getCell b c.field)).map dateKey with
    | some x, some y => some (x - y)
    | _, _ => none
  | _ => some (lexCompare (jsToString (getCell a c.field)) (jsToString (getCell b c.field)))

/-- The comparator passed to `sort`: first condition with a non-zero (or
`NaN`) comparison decides, `desc` negates; a `NaN` escaping the loop is
coerced to `+0` by the ECMAScript sort machinery. -/
def rowCompare (fields : List FieldInfo) : List SortCondition → Row → Row → ℚ
  | [], _, _ => 0
  | c :: rest, a, b =>
    match fieldCompare fields c a b with
    | some q =>
      if q = 0 then rowCompare fields rest a b
      else match c.dir with
        | .asc => q
        | .desc => -q
    | none => 0

/-- `sort(data, conditions)`: `Array.prototype.sort` modelled as a stable
merge sort over the comparator. -/
def sortRows (fields : List FieldInfo) (data : List Row) (conditions : List SortCondition) : List Row :=
  data.mergeSort (fun a b => rowCompare fields conditions a b ≤ 0)

/-! Group / aggregate engine. -/

/-- The group key of a row: `String(row[field] || 'Unknown')`. -/
def groupKey (row : Row) (fieldName : Str) : Str :=
  if jsFalsy (getCell row fieldName) then "Unknown".data else jsToString (getCell row fieldName)

/-- Append a row to its group, creating the group at the end on first use
(JS object insertion-order semantics). -/
def insertGroup : List (Str × List Row) → Str → Row → List (Str × List Row)
  | [], k, row => [(k, [row])]
  | p :: r, k, row =>
    if p.1 = k then (p.1, p.2 ++ [row]) :: r else p :: insertGroup r k row

/-- `groupBy(fieldName)`: an object from stringified key to row list. -/
def groupBy (data : List Row) (fieldName : Str) : List (Str × List Row) :=
  data.foldl (fun grps row => insertGroup grps (groupKey row fieldName) row) []

inductive AggOp where
  | sum : AggOp
  | avg : AggOp
  | count : AggOp
  | min : AggOp
  | max : AggOp
deriving DecidableEq, Repr

/-- Reduce one group per the `switch` in `DataProcessor.aggregate`. -/
def aggReduce (valueField : Str) (op : AggOp) (groupData : List Row) : ℚ :=
  match op with
  | .count => groupData.length
  | .sum =>
    groupData.foldl (fun s row =>
      s + (match jsParseFloat (getCell row valueField) with
           | some q => if q = 0 then 0 else q
           | none => 0)) 0
  | .avg =>
    let values := groupData.filterMap (fun row => jsParseFloat (getCell row valueField))
    if values.length > 0 then values.foldl (· + ·) 0 / values.length else 0
  | .min =>
    let values := groupData.filterMap (fun row => jsParseFloat (getCell row valueField))
    match values with
    | [] => 0
    | v :: vs => vs.foldl min v
  | .max =>
    let values := groupData.filterMap (fun row => jsParseFloat (getCell row valueField))
    match values with
    | [] => 0
    | v :: vs => vs.foldl max v

/-- `aggregate(groupField, valueField, op)`. -/
def aggregate (data : List Row) (groupField valueField : Str) (op : AggOp) : List (Str × ℚ) :=
  (groupBy data groupField).map (fun p => (p.1, aggReduce valueField op p.2))

def lookupAgg (k : Str) : List (Str × ℚ) → Option ℚ
  | [] => none
  | (k', v) :: r => if k' = k then some v else lookupAgg k r

def lookupGroup (k : Str) : List (Str × List Row) → Option (List Row)
  | [] => none
  | (k', v) :: r => if k' = k then some v else lookupGroup k r

/-! Sampler (`DataProcessor.sample`). -/

inductive SampleMethod where
  | random : SampleMethod
  | first : SampleMethod
  | last : SampleMethod
deriving DecidableEq, Repr

/-- `sample(size, method)`.  The `random` branch shuffles with a comparator
using `Math.random()`; the nondeterministic shuffled order is passed in as
`shuffled` (a stand-in permutation of `data`).  Note `slice(-size)` with
`size = 0` is `slice(0)`, the whole array. -/
def sample (data : List Row) (size : ℕ) (method : SampleMethod) (shuffled : List Row) : List Row :=
  if data.length ≤ size then data
  else
    match method with
    | .first => data.take size
    | .last => if size = 0 then data else data.drop (data.length - size)
    | .random => shuffled.take size

/-! Cleaner (`DataProcessor.clean`). -/

/-- Canonicalise one cell for its field, per the two `switch` blocks in
`clean()`. -/
def cleanCell (t : FType) (v : Value) : Value :=
  if isMissing v then
    match t with
    | .number => .vNum 0
    | .string => .vStr []
    | .date => .vNull
  else
    match t with
    | .number =>
      match jsParseFloat v with
      | some q => .vNum q
      | none => .vNum 0
    | .string => .vStr (jsTrim (jsToString v))
    | .date =>
      match jsParseDate v with
      | some d => .vStr (formatISO d)
      | none => .vNull

/-- Build the cleaned row by assigning `cleanedRow[field.name] = value` for
each declared field in order. -/
def cleanRow (fields : List FieldInfo) (row : Row) : Row :=
  fields.foldl (fun acc f => setKey acc f.name (cleanCell f.type (getCell row f.name))) []

/-- `clean()`: map `cleanRow` over the dataset. -/
def cleanData (fields : List FieldInfo) (data : List Row) : List Row :=
  data.map (cleanRow fields)

/-! Numeric statistics (`DataProcessor.getNumericStats`). -/

structure NumStats where
  min : ℚ
  max : ℚ
  avg : ℚ
  median : ℚ
deriving DecidableEq, Repr

/-- Read min, max, mean and median off the ascending-sorted value list, as
the tail of `getNumericStats` does; `none` on the empty list. -/
def statsOfSorted (values : List ℚ) : Option NumStats :=
  match values with
  | [] => none
  | _ :: _ =>
    some
      { min := values.getD 0 0
        max := values.getD (values.length - 1) 0
        avg := values.foldl (· + ·) 0 / values.length
        median :=
          if values.length % 2 = 0 then
            (values.getD (values.length / 2 - 1) 0 + values.getD (values.length / 2) 0) / 2
          else values.getD (values.length / 2) 0 }

/-- `getNumericStats(fieldName)`: `null` when the field is not declared
numeric or no cell parses; otherwise min/max/avg/median of the ascending
sort of the parsed values. -/
def getNumericStats (fields : List FieldInfo) (data : List Row) (fieldName : Str) : Option NumStats :=
  match fields.find? (fun f => f.name = fieldName) with
  | none => none
  | some f =>
    if f.type ≠ .number then none
    else
      statsOfSorted
        ((data.filterMap (fun row => jsParseFloat (getCell row fieldName))).mergeSort (· ≤ ·))

/-! Serializer (`DataProcessor.export`, CSV branch) and the ingestion
layer's `parseCSV`.  The JSON branch of `export` is not modelled (no claim
depends on it). -/

/-- Join pieces with a separator character (`Array.prototype.join`). -/
def joinSep (sep : Char) : List Str → Str
  | [] => []
  | [x] => x
  | x :: y :: t => x ++ sep :: joinSep sep (y :: t)

/-- Split on a separator character (`String.prototype.split`). -/
def splitSep (sep : Char) : Str → List Str
  | [] => [[]]
  | c :: cs =>
    let r := splitSep sep cs
    if c = sep then [] :: r
    else
      match r with
      | [] => [[c]]
      | x :: xs => (c :: x) :: xs

/-- Double every double-quote: `value.replace(/"/g, '""')`. -/
def escQuotes (s : Str) : Str :=
  s.flatMap (fun c => if c = '"' then ['"', '"'] else [c])

/-- Render one cell for CSV: a string containing a comma or quote is wrapped
in doubled quotes; other values pass through `Array.prototype.join`'s
conversion (`null`/`undefined` become empty). -/
def csvCell (v : Value) : Str :=
  match v with
  | .vStr s => if ',' ∈ s ∨ '"' ∈ s then '"' :: escQuotes s ++ ['"'] else s
  | .vNull => []
  | .vUndef => []
  | v => jsToString v

/-- `export(data, 'csv')`. -/
def exportCSV (data : List Row) : Str :=
  match data with
  | [] => []
  | first :: _ =>
    let headers := keysOf first
    let headerLine := joinSep ',' headers
    let body := data.map (fun row => joinSep ',' (headers.map (fun h => csvCell (getCell row h))))
    joinSep '\n' (headerLine :: body)

/-- Strip every double-quote: `.replace(/"/g, '')`. -/
def stripQuotes (s : Str) : Str := s.filter (fun c => c ≠ '"')

/-- Build one parsed row: `row[header] = values[index] || ''`. -/
def buildRow (headers values : List Str) : Row :=
  (headers.enum.foldl (fun row p => setKey row p.2 (.vStr ((values.getD p.1 [])))) [])

/-- The ingestion layer's `parseCSV`. -/
def parseCSV (text : Str) : List Row :=
  let lines := splitSep '\n' (jsTrim text)
  match lines with
  | [] => []
  | hl :: rest =>
    let headers := (splitSep ',' hl).map (fun h => stripQuotes (jsTrim h))
    rest.map (fun line =>
      buildRow headers ((splitSep ',' line).map (fun v => stripQuotes (jsTrim v))))

/-! Field type inference (`analyzeFields`). -/

/-- Search for either date pattern (`\d{4}-\d{2}-\d{2}` or
`\d{2}/\d{2}/\d{4}`) anywhere in the string, as `String.prototype.match`
with an unanchored regex does. -/
def isoPatAt : Str → Bool
  | a :: b :: c :: d :: '-' :: e :: f :: '-' :: g :: h :: _ =>
    isDigit a && isDigit b && isDigit c && isDigit d &&
      isDigit e && isDigit f && isDigit g && isDigit h
  | _ => false

def slashPatAt : Str → Bool
  | a :: b :: '/' :: c :: d :: '/' :: e :: f :: g :: h :: _ =>
    isDigit a && isDigit b && isDigit c && isDigit d &&
      isDigit e && isDigit f && isDigit g && isDigit h
  | _ => false

def datePatSearch : Str → Bool
  | [] => false
  | c :: cs => isoPatAt (c :: cs) || slashPatAt (c :: cs) || datePatSearch cs

/-- The per-value date test in `analyzeFields`: a valid `Date` and a textual
pattern match. -/
def dateTest (v : Value) : Bool :=
  (jsParseDate v).isSome && datePatSearch (jsToString v)

/-- Ratio comparison `count / len > 0.8` with JS division: `0/0` is `NaN`
and `NaN > 0.8` is false. -/
def ratioGt (count len : ℕ) : Bool :=
  if len = 0 then false else (count : ℚ) / (len : ℚ) > 4 / 5

/-- Classify one column from its sampled values, per `analyzeFields`. -/
def analyzeType (values : List Value) : FType :=
  let nonNull := values.filter (fun v => !isMissing v)
  let numericCount := (nonNull.filter (fun v => (jsToNumber v).isSome)).length
  let isNumeric := ratioGt numericCount nonNull.length
  let dateCount := (nonNull.filter dateTest).length
  let isDate := ratioGt dateCount nonNull.length
  if isNumeric then .number else if isDate then .date else .string

/-- `analyzeFields(data)`: classify each key of the first row over the first
100 rows. -/
def analyzeFields (data : List Row) : List FieldInfo :=
  match data with
  | [] => []
  | first :: _ =>
    (keysOf first).map (fun k =>
      { name := k, type := analyzeType ((data.take 100).map (fun row => getCell row k)) })

/-! Helper lemmas about the object model. -/

theorem lookupKey_setKey (row : Row) (k k' : Str) (v : Value) :
    lookupKey k (setKey row k' v) =
      if k' = k then some v else lookupKey k row := by
  induction row with
  | nil => simp [setKey, lookupKey]
  | cons p r ih =>
    by_cases hp : p.1 = k'
    · by_cases hk : k' = k <;> simp [setKey, lookupKey, hp, hk]
    · by_cases hpk : p.1 = k
      · have hk : k' ≠ k := fun h => hp (hpk.trans h.symm)
        simp [setKey, lookupKey, hp, hpk, hk, Ne.symm hk]
      · simp [setKey, lookupKey, hp, hpk, ih]

theorem setKey_fresh (row : Row) (k : Str) (v : Value)
    (h : lookupKey k row = none) : setKey row k v = row ++ [(k, v)] := by
  induction row with
  | nil => simp [setKey]
  | cons p r ih =>
    simp only [lookupKey] at h
    by_cases hp : p.1 = k
    · simp [hp] at h
    · simp only [hp, if_false] at h
      simp [setKey, hp, ih h]

theorem lookupKey_append_left (l r : List (Str × Value)) (k : Str)
    (h : lookupKey k l = none) : lookupKey k (l ++ r) = lookupKey k r := by
  induction l with
  | nil => simp
  | cons p t ih =>
    simp only [lookupKey] at h ⊢
    by_cases hp : p.1 = k
    · simp [hp] at h
    · simp only [List.cons_append, lookupKey, hp, if_false] at *
      exact ih h

/-- With distinct field names, folding the per-field assignments over an
accumulator just appends the association pairs in order. -/
theorem foldl_setKey_plain (g : FieldInfo → Value) :
    ∀ (fields : List FieldInfo) (acc : Row),
      (fields.map FieldInfo.name).Nodup →
      (∀ f ∈ fields, lookupKey f.name acc = none) →
      fields.foldl (fun acc f => setKey acc f.name (g f)) acc =
        acc ++ fields.map (fun f => (f.name, g f)) := by
  intro fields
  induction fields with
  | nil => simp
  | cons f fs ih =>
    intro acc hnd hfresh
    simp only [List.foldl_cons]
    rw [setKey_fresh acc f.name (g f) (hfresh f (List.mem_cons_self f fs))]
    rw [ih (acc ++ [(f.name, g f)]) (by simpa using hnd.of_cons)]
    · simp
    · intro f' hf'
      have hne : f'.name ≠ f.name := by
        simp only [List.map_cons, List.nodup_cons] at hnd
        intro h
        exact hnd.1 (h ▸ List.mem_map_of_mem FieldInfo.name hf')
      rw [lookupKey_append_left _ _ _ (hfresh f' (List.mem_cons_of_mem f hf'))]
      simp [lookupKey, hne, Ne.symm hne]

/-- Under distinct field names the cleaned row is literally the list of
per-field cleaned cells. -/
theorem cleanRow_plain (fields : List FieldInfo) (row : Row)
    (hnd : (fields.map FieldInfo.name).Nodup) :
    cleanRow fields row =
      fields.map (fun f => (f.name, cleanCell f.type (getCell row f.name))) := by
  unfold cleanRow
  rw [foldl_setKey_plain _ fields [] hnd (by intro f _; simp [lookupKey])]
  simp

/-- Looking a declared field up in a plainly built row finds its own value. -/
theorem lookupKey_plain (g : FieldInfo → Value) :
    ∀ (fields : List FieldInfo), (fields.map FieldInfo.name).Nodup →
      ∀ f ∈ fields, lookupKey f.name (fields.map (fun f' => (f'.name, g f'))) = some (g f) := by
  intro fields
  induction fields with
  | nil => simp
  | cons f0 fs ih =>
    intro hnd f hf
    rcases List.mem_cons.mp hf with h | h
    · subst h; simp [lookupKey]
    · have hne : f.name ≠ f0.name := by
        simp only [List.map_cons, List.nodup_cons] at hnd
        intro heq
        exact hnd.1 (heq ▸ List.mem_map_of_mem FieldInfo.name h)
      simp only [List.map_cons, lookupKey, Ne.symm hne, ite_false, if_neg]
      exact ih (by simpa using hnd.of_cons) f h

theorem lookupKey_plain_none (g : FieldInfo → Value) :
    ∀ (fields : List FieldInfo) (k : Str), k ∉ fields.map FieldInfo.name →
      lookupKey k (fields.map (fun f' => (f'.name, g f'))) = none := by
  intro fields
  induction fields with
  | nil => simp [lookupKey]
  | cons f0 fs ih =>
    intro k hk
    simp only [List.map_cons, List.mem_cons, not_or] at hk
    have h1 : f0.name ≠ k := fun h => hk.1 h.symm
    simp only [List.map_cons, lookupKey, h1, ite_false, if_neg]
    exact ih k hk.2

/-- Sample rows used by concrete witnesses. -/
def rowX1 : Row := [("x".data, .vNum 1)]

def rowX2 : Row := [("x".data, .vNum 2)]

/-- C6: appending filter conditions can only shrink the result
(conjunction semantics of `DataProcessor.filter`). -/
theorem claim_C6 (data : List Row) (c1 c2 : List FilterCondition) (row : Row)
    (h : row ∈ filterRows data (c1 ++ c2)) : row ∈ filterRows data c1 := by
  simp only [filterRows, List.mem_filter, List.all_append, Bool.and_eq_true] at h ⊢
  exact ⟨h.1, h.2.1⟩

theorem claim_C6_witness : rowX1 ∈ filterRows [rowX1] [] :=
  claim_C6 [rowX1] [] [⟨"x".data, .equals, .vNum 1, .vUndef⟩] rowX1 (by decide)

/-- C3 counterexample: with one row, `sample(0, 'last')` returns the whole
dataset rather than the empty slice of length 0 the claim requires
(`slice(-0)` is `slice(0)`). -/
theorem claim_C3_counterexample :
    sample [rowX1] 0 .last [] = [rowX1] ∧ (0 : ℕ) < ([rowX1] : List Row).length ∧
      (sample [rowX1] 0 .last []).length ≠ 0 := by
  refine ⟨by decide, by decide, by decide⟩

/-- C3 (amended): if `n ≥ rowCount` every method returns all rows
unchanged; otherwise `first` returns the first `n` rows and, for `0 < n`,
`last` returns the last `n` rows; for `n = 0` the `last` method returns all
rows (the `slice(-0)` quirk). -/
theorem claim_C3 (data : List Row) (n : ℕ) (m : SampleMethod) (sh : List Row) :
    (data.length ≤ n → sample data n m sh = data)
    ∧ (n < data.length → sample data n .first sh = data.take n)
    ∧ (0 < n → n < data.length → sample data n .last sh = data.drop (data.length - n))
    ∧ (n = 0 → 0 < data.length → sample data n .last sh = data) := by
  refine ⟨?_, ?_, ?_, ?_⟩
  · intro h
    simp [sample, h]
  · intro h
    simp [sample, Nat.not_le.mpr h]
  · intro h0 h
    simp [sample, Nat.not_le.mpr h, Nat.pos_iff_ne_zero.mp h0]
  · intro h0 h
    subst h0
    simp [sample, Nat.not_le.mpr h]

theorem claim_C3_witness :
    sample [rowX1, rowX2] 5 .random [] = [rowX1, rowX2]
    ∧ sample [rowX1, rowX2] 1 .first [] = [rowX1]
    ∧ sample [rowX1, rowX2] 1 .last [] = [rowX2]
    ∧ sample [rowX1, rowX2] 0 .last [] = [rowX1, rowX2] := by
  refine ⟨(claim_C3 [rowX1, rowX2] 5 .random []).1 (by decide),
    ((claim_C3 [rowX1, rowX2] 1 .first []).2.1 (by decide)).trans (by decide),
    ((claim_C3 [rowX1, rowX2] 1 .last []).2.2.1 (by decide) (by decide)).trans (by decide),
    (claim_C3 [rowX1, rowX2] 0 .last []).2.2.2 rfl (by decide)⟩

/-- C10: a cleaned row's keys are exactly the declared field names: keys of
the source row that are not declared are dropped, and every declared field
is present. -/
theorem claim_C10 (fields : List FieldInfo) (data : List Row) (row : Row)
    (hnd : (fields.map FieldInfo.name).Nodup)
    (h : row ∈ cleanData fields data) :
    row.map Prod.fst = fields.map FieldInfo.name
    ∧ (∀ k, k ∉ fields.map FieldInfo.name → lookupKey k row = none)
    ∧ (∀ f ∈ fields, (lookupKey f.name row).isSome) := by
  rcases List.mem_map.mp h with ⟨src, _, hsrc⟩
  subst hsrc
  rw [cleanRow_plain fields src hnd]
  refine ⟨by simp, ?_, ?_⟩
  · intro k hk
    exact lookupKey_plain_none _ fields k hk
  · intro f hf
    rw [lookupKey_plain _ fields hnd f hf]
    simp

theorem claim_C10_witness :
    let fields : List FieldInfo := [⟨"a".data, .string⟩]
    let row : Row := cleanRow fields [("a".data, .vStr "x".data), ("zz".data, .vNum 9)]
    row.map Prod.fst = fields.map FieldInfo.name
    ∧ (∀ k, k ∉ fields.map FieldInfo.name → lookupKey k row = none)
    ∧ (∀ f ∈ fields, (lookupKey f.name row).isSome) :=
  claim_C10 [⟨"a".data, .string⟩] [[("a".data, .vStr "x".data), ("zz".data, .vNum 9)]]
    (cleanRow [⟨"a".data, .string⟩] [("a".data, .vStr "x".data), ("zz".data, .vNum 9)])
    (by decide) (by simp [cleanData])

/-! Lemmas characterising `groupBy`. -/

theorem lookupGroup_insertGroup (grps : List (Str × List Row)) (k k' : Str) (row : Row) :
    lookupGroup k (insertGroup grps k' row) =
      if k' = k then some ((lookupGroup k grps).getD [] ++ [row]) else lookupGroup k grps := by
  induction grps with
  | nil => by_cases hk : k' = k <;> simp [insertGroup, lookupGroup, hk]
  | cons p r ih =>
    by_cases hp : p.1 = k'
    · by_cases hk : k' = k <;> simp [insertGroup, lookupGroup, hp, hk]
    · by_cases hpk : p.1 = k
      · have hk : k' ≠ k := fun h => hp (hpk.trans h.symm)
        simp [insertGroup, lookupGroup, hp, hpk, hk, Ne.symm hk]
      · simp [insertGroup, lookupGroup, hp, hpk, ih]

theorem lookupGroup_groupBy_aux (g : Str) :
    ∀ (data : List Row) (grps : List (Str × List Row)) (k : Str),
      lookupGroup k (data.foldl (fun grps row => insertGroup grps (groupKey row g) row) grps) =
        (match lookupGroup k grps with
         | some cur => some (cur ++ data.filter (fun r => groupKey r g = k))
         | none =>
           if (data.filter (fun r => groupKey r g = k)).isEmpty then none
           else some (data.filter (fun r => groupKey r g = k))) := by
  intro data
  induction data with
  | nil =>
    intro grps k
    cases h : lookupGroup k grps <;> simp [h]
  | cons r rest ih =>
    intro grps k
    simp only [List.foldl_cons]
    rw [ih (insertGroup grps (groupKey r g) r) k]
    rw [lookupGroup_insertGroup]
    by_cases hk : groupKey r g = k
    · simp only [hk, if_pos rfl, List.filter_cons, decide_eq_true_eq]
      cases h : lookupGroup k grps with
      | some cur => simp [h, hk]
      | none => simp [h, hk]
    · simp only [hk, if_neg hk, List.filter_cons, decide_eq_true_eq]
      cases h : lookupGroup k grps with
      | some cur => simp only [h, hk, if_neg not_false, decide_eq_false hk, ite_false]
      | none => simp only [h, hk, if_neg not_false, decide_eq_false hk, ite_false]

theorem lookupGroup_groupBy (data : List Row) (g k : Str) :
    lookupGroup k (groupBy data g) =
      (if (data.filter (fun r => groupKey r g = k)).isEmpty then none
       else some (data.filter (fun r => groupKey r g = k))) := by
  unfold groupBy
  rw [lookupGroup_groupBy_aux g data [] k]
  rfl

/-- C1 counterexample: a cell holding the number `0` is not missing, yet
`groupBy` files its row under the literal key "Unknown" (because `||`
tests JS truthiness, not missingness), and "Unknown" is not the cell's
string form "0". -/
theorem claim_C1_counterexample :
    groupBy [[("g".data, Value.vNum 0)]] "g".data =
      [("Unknown".data, [[("g".data, Value.vNum 0)]])]
    ∧ isMissing (getCell [("g".data, Value.vNum 0)] "g".data) = false
    ∧ jsToString (getCell [("g".data, Value.vNum 0)] "g".data) ≠ "Unknown".data := by
  refine ⟨by decide, by decide, by decide⟩

/-- C1 (amended): `groupBy` partitions the rows — the group under key `k`
is exactly the sublist of rows whose group key is `k`, and every row lands
in the group of its own key — where the key of a row is the string form of
its cell except that a JS-falsy cell (missing, the number `0`, or `false`)
yields the literal key "Unknown". -/
theorem claim_C1 (data : List Row) (g : Str) :
    (∀ k, lookupGroup k (groupBy data g) =
      (if (data.filter (fun r => groupKey r g = k)).isEmpty then none
       else some (data.filter (fun r => groupKey r g = k))))
    ∧ (∀ row ∈ data, row ∈ (lookupGroup (groupKey row g) (groupBy data g)).getD [])
    ∧ (∀ row ∈ data,
        groupKey row g =
          if jsFalsy (getCell row g) then "Unknown".data else jsToString (getCell row g)) := by
  refine ⟨fun k => lookupGroup_groupBy data g k, ?_, ?_⟩
  · intro row hrow
    rw [lookupGroup_groupBy data g (groupKey row g)]
    have hmem : row ∈ data.filter (fun r => groupKey r g = groupKey row g) :=
      List.mem_filter.mpr ⟨hrow, by simp⟩
    have hne : ¬ (data.filter (fun r => groupKey r g = groupKey row g)).isEmpty := by
      intro h
      rw [List.isEmpty_iff] at h
      rw [h] at hmem
      exact List.not_mem_nil row hmem
    simp only [hne, ite_false, if_neg, Option.getD_some]
    exact hmem
  · intro row _
    simp [groupKey]

theorem claim_C1_witness :
    [("g".data, Value.vStr "x".data)] ∈
      (lookupGroup (groupKey [("g".data, Value.vStr "x".data)] "g".data)
        (groupBy [[("g".data, Value.vStr "x".data)]] "g".data)).getD []
    ∧ groupKey [("g".data, Value.vStr "x".data)] "g".data = "x".data :=
  ⟨(claim_C1 [[("g".data, Value.vStr "x".data)]] "g".data).2.1
      [("g".data, Value.vStr "x".data)] (by decide),
   by decide⟩

/-! Lemmas for `aggregate`. -/

theorem lookupAgg_map (f : List Row → ℚ) :
    ∀ (l : List (Str × List Row)) (k : Str),
      lookupAgg k (l.map (fun p => (p.1, f p.2))) = (lookupGroup k l).map f := by
  intro l
  induction l with
  | nil => simp [lookupAgg, lookupGroup]
  | cons p r ih =>
    intro k
    by_cases hp : p.1 = k <;> simp [lookupAgg, lookupGroup, hp, ih]

theorem foldl_add_map {α : Type} (f : α → ℚ) :
    ∀ (l : List α) (c : ℚ), l.foldl (fun s x => s + f x) c = c + (l.map f).sum := by
  intro l
  induction l with
  | nil => simp
  | cons x t ih =>
    intro c
    simp only [List.foldl_cons, List.map_cons, List.sum_cons, ih]
    ring

theorem orZero_eq_getD (o : Option ℚ) :
    (match o with | some q => if q = 0 then 0 else q | none => 0) = o.getD 0 := by
  cases o with
  | none => rfl
  | some q =>
    by_cases hq : q = 0 <;> simp [hq]

/-- C4: per group, `avg` is the mean of the cells that parse (unparsable
cells excluded from numerator and denominator, `0` when none parse) and
`sum` adds the parsed values with unparsable cells contributing `0`; the
spec's scenario evaluates to `{g: 15}`. -/
theorem claim_C4 :
    (∀ (data : List Row) (g v k : Str) (rows : List Row),
      lookupGroup k (groupBy data g) = some rows →
        lookupAgg k (aggregate data g v .avg) =
          some
            (if (rows.filterMap (fun r => jsParseFloat (getCell r v))).isEmpty then 0
             else (rows.filterMap (fun r => jsParseFloat (getCell r v))).sum /
               (rows.filterMap (fun r => jsParseFloat (getCell r v))).length)
        ∧ lookupAgg k (aggregate data g v .sum) =
          some ((rows.map (fun r => (jsParseFloat (getCell r v)).getD 0)).sum))
    ∧ lookupAgg "g".data (aggregate
        [[("a".data, .vStr "g".data), ("n".data, .vStr "10".data)],
         [("a".data, .vStr "g".data), ("n".data, .vStr "abc".data)],
         [("a".data, .vStr "g".data), ("n".data, .vStr "20".data)]]
        "a".data "n".data .avg) = some 15 := by
  constructor
  · intro data g v k rows h
    constructor
    · unfold aggregate
      rw [lookupAgg_map (aggReduce v .avg) (groupBy data g) k, h]
      simp only [Option.map_some']
      congr 1
      unfold aggReduce
      cases hvs : rows.filterMap (fun r => jsParseFloat (getCell r v)) with
      | nil => simp
      | cons q qs =>
        have : ((q :: qs).length > 0) := by simp
        simp only [hvs, this, if_pos, gt_iff_lt, List.isEmpty_cons, ite_false, if_neg]
        rw [show (q :: qs).foldl (· + ·) 0 = (q :: qs).foldl (fun s x => s + id x) 0 from rfl]
        rw [foldl_add_map id (q :: qs) 0]
        simp
    · unfold aggregate
      rw [lookupAgg_map (aggReduce v .sum) (groupBy data g) k, h]
      simp only [Option.map_some']
      congr 1
      unfold aggReduce
      rw [show (fun (s : ℚ) (row : Row) =>
            s + (match jsParseFloat (getCell row v) with
                 | some q => if q = 0 then 0 else q
                 | none => 0)) =
          (fun s row => s + ((jsParseFloat (getCell row v)).getD 0)) from
        funext (fun s => funext (fun row => by rw [orZero_eq_getD]))]
      rw [foldl_add_map (fun r => (jsParseFloat (getCell r v)).getD 0) rows 0]
      simp
  · with_unfolding_all rfl

theorem claim_C4_witness :
    lookupAgg "x".data (aggregate [[("a".data, Value.vStr "x".data)]] "a".data "n".data .avg) =
      some 0
    ∧ lookupAgg "x".data (aggregate [[("a".data, Value.vStr "x".data)]] "a".data "n".data .sum) =
      some 0 := by
  have h := claim_C4.1 [[("a".data, Value.vStr "x".data)]] "a".data "n".data "x".data
    [[("a".data, Value.vStr "x".data)]] (by decide)
  exact ⟨h.1.trans (by with_unfolding_all rfl), h.2.trans (by with_unfolding_all rfl)⟩

theorem ratioGt_iff (c l : ℕ) :
    ratioGt c l = true ↔ l ≠ 0 ∧ (c : ℚ) / (l : ℚ) > 4 / 5 := by
  unfold ratioGt
  by_cases h : l = 0 <;> simp [h]

/-- C9: type inference assigns `number` when strictly more than 0.8 of the
non-missing sampled values convert to numbers, else `date` when strictly
more than 0.8 of them are valid dates matching an ISO or slash pattern,
else `string`; an all-missing column is classified `string`. -/
theorem claim_C9 (values : List Value) :
    (analyzeType values = .number ↔
      (values.filter (fun v => !isMissing v)).length ≠ 0 ∧
        (((values.filter (fun v => !isMissing v)).filter
            (fun v => (jsToNumber v).isSome)).length : ℚ) /
          ((values.filter (fun v => !isMissing v)).length : ℚ) > 4 / 5)
    ∧ (analyzeType values = .date ↔
      ¬((values.filter (fun v => !isMissing v)).length ≠ 0 ∧
        (((values.filter (fun v => !isMissing v)).filter
            (fun v => (jsToNumber v).isSome)).length : ℚ) /
          ((values.filter (fun v => !isMissing v)).length : ℚ) > 4 / 5)
      ∧ ((values.filter (fun v => !isMissing v)).length ≠ 0 ∧
        (((values.filter (fun v => !isMissing v)).filter dateTest).length : ℚ) /
          ((values.filter (fun v => !isMissing v)).length : ℚ) > 4 / 5))
    ∧ ((∀ v ∈ values, isMissing v) → analyzeType values = .string) := by
  have hana : analyzeType values =
      (if ratioGt ((values.filter (fun v => !isMissing v)).filter
            (fun v => (jsToNumber v).isSome)).length
          (values.filter (fun v => !isMissing v)).length then FType.number
       else if ratioGt ((values.filter (fun v => !isMissing v)).filter dateTest).length
          (values.filter (fun v => !isMissing v)).length then FType.date
       else FType.string) := rfl
  have hNiff := ratioGt_iff
    ((values.filter (fun v => !isMissing v)).filter (fun v => (jsToNumber v).isSome)).length
    (values.filter (fun v => !isMissing v)).length
  have hDiff := ratioGt_iff
    ((values.filter (fun v => !isMissing v)).filter dateTest).length
    (values.filter (fun v => !isMissing v)).length
  rw [hana]
  rw [← hNiff, ← hDiff]
  cases hN : ratioGt ((values.filter (fun v => !isMissing v)).filter
      (fun v => (jsToNumber v).isSome)).length
      (values.filter (fun v => !isMissing v)).length with
  | true =>
    refine ⟨by simp, by simp, ?_⟩
    intro hall
    have hnil : values.filter (fun v => !isMissing v) = [] := by
      rw [List.filter_eq_nil_iff]
      intro v hv
      simp [hall v hv]
    rw [hnil] at hN
    simp [ratioGt] at hN
  | false =>
    cases hD : ratioGt ((values.filter (fun v => !isMissing v)).filter dateTest).length
        (values.filter (fun v => !isMissing v)).length with
    | true =>
      refine ⟨by simp, by simp, ?_⟩
      intro hall
      have hnil : values.filter (fun v => !isMissing v) = [] := by
        rw [List.filter_eq_nil_iff]
        intro v hv
        simp [hall v hv]
      rw [hnil] at hD
      simp [ratioGt] at hD
    | false => refine ⟨by simp, by simp, by intro _; simp⟩

theorem claim_C9_witness : analyzeType [Value.vNull, Value.vStr []] = .string :=
  (claim_C9 [Value.vNull, Value.vStr []]).2.2 (by decide)

/-! Lemmas for `getNumericStats`. -/

theorem sorted_head_min (s : List ℚ) (hs : s.Sorted (· ≤ ·)) :
    ∀ x ∈ s, s.getD 0 0 ≤ x := by
  cases s with
  | nil => intro x hx; cases hx
  | cons a t =>
    intro x hx
    rcases List.mem_cons.mp hx with h | h
    · simp [h]
    · simpa using (List.sorted_cons.mp hs).1 x h

theorem sorted_last_max (s : List ℚ) (hs : s.Sorted (· ≤ ·)) :
    ∀ x ∈ s, x ≤ s.getD (s.length - 1) 0 := by
  induction s with
  | nil => intro x hx; cases hx
  | cons a t ih =>
    intro x hx
    cases t with
    | nil =>
      rcases List.mem_cons.mp hx with h | h
      · simp [h]
      · cases h
    | cons b u =>
      have hlen : (a :: b :: u).length - 1 = (b :: u).length := by simp
      have hstep : (a :: b :: u).getD ((b :: u).length) 0 =
          (b :: u).getD ((b :: u).length - 1) 0 := by
        cases u <;> simp [List.getD]
      rw [hlen, hstep]
      rcases List.mem_cons.mp hx with h | h
      · subst h
        have hlt : (b :: u).length - 1 < (b :: u).length := by simp
        have hmem : (b :: u).getD ((b :: u).length - 1) 0 ∈ b :: u := by
          rw [List.getD_eq_getElem _ _ hlt]
          exact List.getElem_mem hlt
        exact (List.sorted_cons.mp hs).1 _ hmem
      · exact ih (List.sorted_cons.mp hs).2 x h

theorem getD_zero_mem (s : List ℚ) (h : s ≠ []) : s.getD 0 0 ∈ s := by
  cases s with
  | nil => exact absurd rfl h
  | cons a t => simp [List.getD]

theorem getD_last_mem (s : List ℚ) (h : s ≠ []) : s.getD (s.length - 1) 0 ∈ s := by
  have hlt : s.length - 1 < s.length := by
    cases s with
    | nil => exact absurd rfl h
    | cons a t => simp
  rw [List.getD_eq_getElem _ _ hlt]
  exact List.getElem_mem hlt

/-- C8: `getNumericStats` is `null` exactly when the field is not declared
with type `number` or no cell parses; otherwise it returns the minimum,
maximum and mean of the parsed values and the standard sorted median; on
values 1,2,3,4 it returns min 1, max 4, avg 2.5, median 2.5. -/
theorem foldl_add_eq_sum : ∀ (l : List ℚ) (c : ℚ), l.foldl (· + ·) c = c + l.sum
  | [], c => by simp
  | x :: t, c => by
    rw [List.foldl_cons, foldl_add_eq_sum t (c + x), List.sum_cons]
    ring

theorem statsOfSorted_eq_none (V : List ℚ) : statsOfSorted V = none ↔ V = [] := by
  cases V <;> simp [statsOfSorted]

theorem statsOfSorted_eq_some (V : List ℚ) (h : V ≠ []) :
    statsOfSorted V =
      some
        { min := V.getD 0 0
          max := V.getD (V.length - 1) 0
          avg := V.foldl (· + ·) 0 / V.length
          median :=
            if V.length % 2 = 0 then
              (V.getD (V.length / 2 - 1) 0 + V.getD (V.length / 2) 0) / 2
            else V.getD (V.length / 2) 0 } := by
  cases V with
  | nil => exact absurd rfl h
  | cons q qs => rfl

theorem claim_C8 :
    (∀ (fields : List FieldInfo) (data : List Row) (f : Str),
      (fields.map FieldInfo.name).Nodup →
      (getNumericStats fields data f = none ↔
        (¬ ∃ fd ∈ fields, fd.name = f ∧ fd.type = .number)
        ∨ data.filterMap (fun r => jsParseFloat (getCell r f)) = []))
    ∧ (∀ (fields : List FieldInfo) (data : List Row) (f : Str) (st : NumStats),
        getNumericStats fields data f = some st →
        ∀ s : List ℚ, (data.filterMap (fun r => jsParseFloat (getCell r f))).Perm s →
          s.Sorted (· ≤ ·) →
          (st.min ∈ s ∧ ∀ x ∈ s, st.min ≤ x)
          ∧ (st.max ∈ s ∧ ∀ x ∈ s, x ≤ st.max)
          ∧ st.avg = s.sum / s.length
          ∧ st.median = (if s.length % 2 = 0 then
              (s.getD (s.length / 2 - 1) 0 + s.getD (s.length / 2) 0) / 2
            else s.getD (s.length / 2) 0))
    ∧ getNumericStats [⟨"n".data, .number⟩]
        [[("n".data, .vStr "1".data)], [("n".data, .vStr "2".data)],
         [("n".data, .vStr "3".data)], [("n".data, .vStr "4".data)]] "n".data =
      some ⟨1, 4, 5/2, 5/2⟩ := by
  refine ⟨?_, ?_, by with_unfolding_all rfl⟩
  · intro fields data f hnd
    unfold getNumericStats
    split
    · rename_i hfind
      constructor
      · intro _
        left
        rintro ⟨fd, hmem, hname, _⟩
        have := List.find?_eq_none.mp hfind fd hmem
        simp [hname] at this
      · intro _
        rfl
    · rename_i fd hfind
      have hmem := List.mem_of_find?_eq_some hfind
      have hname : fd.name = f := by simpa using List.find?_some hfind
      by_cases htype : fd.type = FType.number
      · rw [if_neg (show ¬ fd.type ≠ FType.number from fun hh => hh htype)]
        rw [statsOfSorted_eq_none]
        have hperm := List.mergeSort_perm
          (data.filterMap (fun r => jsParseFloat (getCell r f))) (fun a b => a ≤ b)
        constructor
        · intro h
          right
          have hlen := hperm.length_eq
          rw [h] at hlen
          exact List.length_eq_zero.mp hlen.symm
        · intro h
          rcases h with hno | hempty
          · exact absurd ⟨fd, hmem, hname, htype⟩ hno
          · rw [hempty, List.mergeSort_nil]
      · rw [if_pos htype]
        constructor
        · intro _
          left
          rintro ⟨fd', hmem', hname', htype'⟩
          have heq : fd' = fd :=
            List.inj_on_of_nodup_map hnd hmem' hmem (by rw [hname', hname])
          exact htype (heq ▸ htype')
        · intro _
          rfl
  · intro fields data f st hsome s hperm hsorted
    unfold getNumericStats at hsome
    split at hsome
    · cases hsome
    · rename_i fd hfind
      by_cases htype : fd.type = FType.number
      · rw [if_neg (show ¬ fd.type ≠ FType.number from fun hh => hh htype)] at hsome
        have hVperm := List.mergeSort_perm
          (data.filterMap (fun r => jsParseFloat (getCell r f))) (fun a b => a ≤ b)
        have hVsorted : ((data.filterMap
            (fun r => jsParseFloat (getCell r f))).mergeSort (· ≤ ·)).Sorted (· ≤ ·) :=
          List.sorted_mergeSort' _
        have hsV : s = (data.filterMap
            (fun r => jsParseFloat (getCell r f))).mergeSort (· ≤ ·) :=
          List.eq_of_perm_of_sorted (hperm.symm.trans hVperm.symm) hsorted hVsorted
        have hne : (data.filterMap
            (fun r => jsParseFloat (getCell r f))).mergeSort (· ≤ ·) ≠ [] := by
          intro h
          rw [h] at hsome
          cases hsome
        rw [statsOfSorted_eq_some _ hne] at hsome
        have hst := (Option.some.inj hsome).symm
        subst hsV
        subst hst
        refine ⟨⟨getD_zero_mem _ hne, sorted_head_min _ hVsorted⟩,
          ⟨getD_last_mem _ hne, sorted_last_max _ hVsorted⟩, ?_, rfl⟩
        have hsum : ((data.filterMap
            (fun r => jsParseFloat (getCell r f))).mergeSort (· ≤ ·)).foldl (· + ·) 0 =
            ((data.filterMap
              (fun r => jsParseFloat (getCell r f))).mergeSort (· ≤ ·)).sum := by
          rw [foldl_add_eq_sum, zero_add]
        simp only [hsum]
      · rw [if_pos htype] at hsome
        cases hsome

theorem claim_C8_witness :
    (getNumericStats [⟨"n".data, FType.number⟩] [] "n".data = none)
    ∧ (getNumericStats [] [] "n".data = none) :=
  ⟨(claim_C8.1 [⟨"n".data, FType.number⟩] [] "n".data (by decide)).mpr (Or.inr rfl),
   (claim_C8.1 [] [] "n".data (by decide)).mpr
     (Or.inl (by rintro ⟨fd, hmem, _⟩; cases hmem))⟩

/-! Lemmas about `jsTrim`. -/

theorem head?_dropWhile_false (p : Char → Bool) (l : Str) (c : Char)
    (h : (l.dropWhile p).head? = some c) : p c = false := by
  have := List.head?_dropWhile_not p l
  rw [h] at this
  exact this

theorem dropWhile_of_head?_false (p : Char → Bool) (l : Str)
    (h : ∀ c, l.head? = some c → p c = false) : l.dropWhile p = l := by
  cases l with
  | nil => rfl
  | cons a t => exact List.dropWhile_cons_of_neg (by simp [h a rfl])

theorem getLast?_of_suffix (l₁ l₂ : Str) (h : l₁ <:+ l₂) (hne : l₁ ≠ []) :
    l₁.getLast? = l₂.getLast? := by
  obtain ⟨t, rfl⟩ := h
  rw [List.getLast?_append]
  cases hg : l₁.getLast? with
  | none => exact absurd (List.getLast?_eq_none_iff.mp hg) hne
  | some c => rfl

theorem jsTrim_getLast (s : Str) (c : Char) (h : (jsTrim s).getLast? = some c) :
    isWS c = false := by
  unfold jsTrim at h
  rw [List.getLast?_reverse] at h
  exact head?_dropWhile_false isWS _ c h

theorem jsTrim_head (s : Str) (c : Char) (h : (jsTrim s).head? = some c) :
    isWS c = false := by
  unfold jsTrim at h
  rw [List.head?_reverse] at h
  have hne : (s.dropWhile isWS).reverse.dropWhile isWS ≠ [] := by
    intro hnil
    rw [hnil] at h
    cases h
  rw [getLast?_of_suffix _ _ (List.dropWhile_suffix isWS) hne] at h
  rw [List.getLast?_reverse] at h
  exact head?_dropWhile_false isWS _ c h

theorem jsTrim_eq_self_of (l : Str)
    (hh : ∀ c, l.head? = some c → isWS c = false)
    (hl : ∀ c, l.getLast? = some c → isWS c = false) : jsTrim l = l := by
  unfold jsTrim
  rw [dropWhile_of_head?_false isWS l hh]
  rw [dropWhile_of_head?_false isWS l.reverse
    (fun c hc => hl c (by rwa [List.head?_reverse] at hc))]
  exact List.reverse_reverse l

theorem jsTrim_idem (s : Str) : jsTrim (jsTrim s) = jsTrim s :=
  jsTrim_eq_self_of (jsTrim s) (jsTrim_head s) (jsTrim_getLast s)

/-! Digit and date round-trip lemmas. -/

theorem isDigit_dChar (n : ℕ) : isDigit (dChar n) = true := by
  unfold dChar
  split <;> decide

theorem digitVal_dChar (n : ℕ) : digitVal (dChar n) = n % 10 := by
  have hlt : n % 10 < 10 := Nat.mod_lt _ (by norm_num)
  unfold dChar digitVal
  set m := n % 10 with hm
  interval_cases m <;> decide

theorem digitVal_le_of_isDigit (c : Char) (h : isDigit c = true) : digitVal c ≤ 9 := by
  simp only [isDigit, Bool.and_eq_true, decide_eq_true_eq] at h
  unfold digitVal
  omega

theorem daysInMonth_le (y m : ℕ) : daysInMonth y m ≤ 31 := by
  unfold daysInMonth
  split
  · split <;> norm_num
  · split <;> norm_num

theorem validYMD_bounds (y m d : ℕ) (h : validYMD y m d = true) :
    1 ≤ m ∧ m ≤ 12 ∧ 1 ≤ d ∧ d ≤ 31 := by
  simp only [validYMD, Bool.and_eq_true, decide_eq_true_eq] at h
  have := daysInMonth_le y m
  omega

theorem parseISODate_roundtrip (d : YMD) (hv : validYMD d.y d.m d.d = true)
    (hy : d.y ≤ 9999) : parseISODate (formatISO d) = some d := by
  have hb := validYMD_bounds d.y d.m d.d hv
  have hform : formatISO d =
      [dChar (d.y / 1000), dChar (d.y / 100), dChar (d.y / 10), dChar d.y, '-',
       dChar (d.m / 10), dChar d.m, '-', dChar (d.d / 10), dChar d.d] := rfl
  rw [hform]
  simp only [parseISODate]
  rw [if_pos ⟨trivial, trivial, isDigit_dChar _, isDigit_dChar _, isDigit_dChar _,
    isDigit_dChar _, isDigit_dChar _, isDigit_dChar _, isDigit_dChar _, isDigit_dChar _⟩]
  have hyv : valOfDigits [digitVal (dChar (d.y / 1000)), digitVal (dChar (d.y / 100)),
      digitVal (dChar (d.y / 10)), digitVal (dChar d.y)] = d.y := by
    simp only [valOfDigits, List.foldl_cons, List.foldl_nil, digitVal_dChar]
    omega
  have hmv : valOfDigits [digitVal (dChar (d.m / 10)), digitVal (dChar d.m)] = d.m := by
    simp only [valOfDigits, List.foldl_cons, List.foldl_nil, digitVal_dChar]
    omega
  have hdv : valOfDigits [digitVal (dChar (d.d / 10)), digitVal (dChar d.d)] = d.d := by
    simp only [valOfDigits, List.foldl_cons, List.foldl_nil, digitVal_dChar]
    omega
  simp only [hyv, hmv, hdv, hv, if_pos]

theorem parseISODate_valid (s : Str) (d : YMD) (h : parseISODate s = some d) :
    validYMD d.y d.m d.d = true ∧ d.y ≤ 9999 := by
  unfold parseISODate at h
  split at h
  · rename_i a b c d4 s1 e f s2 g h10
    split_ifs at h with hcond hvld
    · rcases hcond with ⟨-, -, ha, hb, hc, hd, -, -, -, -⟩
      have := Option.some.inj h
      subst this
      refine ⟨hvld, ?_⟩
      have h1 := digitVal_le_of_isDigit _ ha
      have h2 := digitVal_le_of_isDigit _ hb
      have h3 := digitVal_le_of_isDigit _ hc
      have h4 := digitVal_le_of_isDigit _ hd
      simp only [valOfDigits, List.foldl_cons, List.foldl_nil]
      omega
  · cases h

theorem parseSlashDate_valid (s : Str) (d : YMD) (h : parseSlashDate s = some d) :
    validYMD d.y d.m d.d = true ∧ d.y ≤ 9999 := by
  unfold parseSlashDate at h
  split at h
  · rename_i a b s1 c d4 s2 e f g h10
    split_ifs at h with hcond hvld
    · rcases hcond with ⟨-, -, -, -, -, -, he, hf, hg, hh⟩
      have := Option.some.inj h
      subst this
      refine ⟨hvld, ?_⟩
      have h1 := digitVal_le_of_isDigit _ he
      have h2 := digitVal_le_of_isDigit _ hf
      have h3 := digitVal_le_of_isDigit _ hg
      have h4 := digitVal_le_of_isDigit _ hh
      simp only [valOfDigits, List.foldl_cons, List.foldl_nil]
      omega
  · cases h

theorem jsParseDate_valid (v : Value) (d : YMD) (h : jsParseDate v = some d) :
    validYMD d.y d.m d.d = true ∧ d.y ≤ 9999 := by
  unfold jsParseDate at h
  split at h
  · rename_i s
    cases hiso : parseISODate s with
    | some d' =>
      rw [hiso] at h
      exact (Option.some.inj h) ▸ parseISODate_valid s d' hiso
    | none =>
      rw [hiso] at h
      exact parseSlashDate_valid s d h
  · cases h

theorem formatISO_ne_nil (d : YMD) : formatISO d ≠ [] := by
  simp [formatISO, pad4]

/-- Cleaning a single cell is idempotent for every field type. -/
theorem cleanCell_idem (t : FType) (v : Value) :
    cleanCell t (cleanCell t v) = cleanCell t v := by
  cases t with
  | number =>
    have hq : ∃ q, cleanCell FType.number v = .vNum q := by
      unfold cleanCell
      split
      · exact ⟨0, rfl⟩
      · cases hp : jsParseFloat v with
        | some q => exact ⟨q, rfl⟩
        | none => exact ⟨0, rfl⟩
    obtain ⟨q, hq⟩ := hq
    rw [hq]
    unfold cleanCell
    rw [if_neg (by simp [isMissing])]
    rfl
  | string =>
    have hs : ∃ s, cleanCell FType.string v = .vStr s ∧ jsTrim s = s := by
      unfold cleanCell
      split
      · exact ⟨[], rfl, rfl⟩
      · exact ⟨jsTrim (jsToString v), rfl, jsTrim_idem (jsToString v)⟩
    obtain ⟨s, hs, hts⟩ := hs
    rw [hs]
    unfold cleanCell
    by_cases he : s.isEmpty
    · rw [if_pos (by simp [isMissing, he])]
      rw [List.isEmpty_iff] at he
      rw [he]
    · rw [if_neg (by simp [isMissing, he])]
      show Value.vStr (jsTrim s) = Value.vStr s
      rw [hts]
  | date =>
    have hd : cleanCell FType.date v = .vNull ∨
        ∃ d, cleanCell FType.date v = .vStr (formatISO d) ∧ jsParseDate v = some d := by
      unfold cleanCell
      split
      · exact Or.inl rfl
      · cases hp : jsParseDate v with
        | some d => exact Or.inr ⟨d, rfl, rfl⟩
        | none => exact Or.inl rfl
    rcases hd with hnull | ⟨d, hstr, hparse⟩
    · rw [hnull]
      rfl
    · rw [hstr]
      obtain ⟨hvld, hy⟩ := jsParseDate_valid v d hparse
      unfold cleanCell
      rw [if_neg (by simp [isMissing, formatISO_ne_nil d])]
      have : jsParseDate (.vStr (formatISO d)) = some d := by
        show (match parseISODate (formatISO d) with
          | some d => some d
          | none => parseSlashDate (formatISO d)) = some d
        rw [parseISODate_roundtrip d hvld hy]
      rw [this]

theorem getCell_plain (g : FieldInfo → Value) (fields : List FieldInfo)
    (hnd : (fields.map FieldInfo.name).Nodup) (f : FieldInfo) (hf : f ∈ fields) :
    getCell (fields.map (fun f' => (f'.name, g f'))) f.name = g f := by
  unfold getCell
  rw [lookupKey_plain g fields hnd f hf]

/-- C5: cleaning already-cleaned rows changes nothing: running `clean()`
on `(clean(rows), fields)` returns `clean(rows)` again. -/
theorem claim_C5 (fields : List FieldInfo) (data : List Row)
    (hnd : (fields.map FieldInfo.name).Nodup) :
    cleanData fields (cleanData fields data) = cleanData fields data := by
  unfold cleanData
  rw [List.map_map]
  apply List.map_congr_left
  intro row _
  show cleanRow fields (cleanRow fields row) = cleanRow fields row
  rw [cleanRow_plain fields row hnd]
  rw [cleanRow_plain fields _ hnd]
  apply List.map_congr_left
  intro f hf
  rw [getCell_plain (fun f' => cleanCell f'.type (getCell row f'.name)) fields hnd f hf]
  rw [cleanCell_idem]

theorem claim_C5_witness :
    cleanData [⟨"n".data, .number⟩]
        (cleanData [⟨"n".data, .number⟩] [[("n".data, Value.vStr "5x".data)]]) =
      cleanData [⟨"n".data, .number⟩] [[("n".data, Value.vStr "5x".data)]] :=
  claim_C5 [⟨"n".data, .number⟩] [[("n".data, Value.vStr "5x".data)]] (by decide)

/-! Lemmas for the CSV round trip. -/

theorem dedupAux_of_nodup :
    ∀ (ks seen : List Str), ks.Nodup → (∀ k ∈ ks, k ∉ seen) →
      dedupAux seen ks = ks
  | [], _, _, _ => rfl
  | k :: ks, seen, hnd, hout => by
    rw [dedupAux, if_neg (hout k (List.mem_cons_self k ks))]
    congr 1
    apply dedupAux_of_nodup ks (k :: seen) (List.nodup_cons.mp hnd).2
    intro k' hk'
    intro hmem
    rcases List.mem_cons.mp hmem with h | h
    · exact (List.nodup_cons.mp hnd).1 (h ▸ hk')
    · exact hout k' (List.mem_cons_of_mem k hk') h

theorem dedupKeys_of_nodup (ks : List Str) (hnd : ks.Nodup) : dedupKeys ks = ks :=
  dedupAux_of_nodup ks [] hnd (by intro k _; exact List.not_mem_nil k)

theorem splitSep_no_sep (sep : Char) : ∀ (x : Str), sep ∉ x → splitSep sep x = [x]
  | [], _ => rfl
  | c :: cs, h => by
    have hc : c ≠ sep := fun hh => h (hh ▸ List.mem_cons_self c cs)
    have hcs : sep ∉ cs := fun hh => h (List.mem_cons_of_mem c hh)
    rw [splitSep, splitSep_no_sep sep cs hcs]
    simp [hc]

theorem splitSep_append (sep : Char) :
    ∀ (x rest : Str), sep ∉ x →
      splitSep sep (x ++ sep :: rest) = x :: splitSep sep rest
  | [], rest, _ => by simp [splitSep]
  | c :: cs, rest, h => by
    have hc : c ≠ sep := fun hh => h (hh ▸ List.mem_cons_self c cs)
    have hcs : sep ∉ cs := fun hh => h (List.mem_cons_of_mem c hh)
    rw [List.cons_append, splitSep, splitSep_append sep cs rest hcs]
    simp [hc]

theorem splitSep_joinSep (sep : Char) :
    ∀ (xs : List Str), xs ≠ [] → (∀ x ∈ xs, sep ∉ x) →
      splitSep sep (joinSep sep xs) = xs
  | [], h, _ => absurd rfl h
  | [x], _, hall => by
    rw [joinSep, splitSep_no_sep sep x (hall x (List.mem_cons_self x []))]
  | x :: y :: t, _, hall => by
    rw [joinSep, splitSep_append sep x _ (hall x (List.mem_cons_self x _)),
      splitSep_joinSep sep (y :: t) (List.cons_ne_nil y t)
        (fun z hz => hall z (List.mem_cons_of_mem x hz))]

theorem not_mem_joinSep (c sep : Char) (hc : c ≠ sep) :
    ∀ (xs : List Str), (∀ x ∈ xs, c ∉ x) → c ∉ joinSep sep xs
  | [], _ => by simp [joinSep]
  | [x], hall => by
    rw [joinSep]
    exact hall x (List.mem_cons_self x [])
  | x :: y :: t, hall => by
    rw [joinSep]
    intro hmem
    rcases List.mem_append.mp hmem with h | h
    · exact hall x (List.mem_cons_self x _) h
    · rcases List.mem_cons.mp h with h | h
      · exact hc h
      · exact not_mem_joinSep c sep hc (y :: t)
          (fun z hz => hall z (List.mem_cons_of_mem x hz)) h

theorem head?_joinSep (sep : Char) (x : Str) (xs : List Str) (hx : x ≠ []) :
    (joinSep sep (x :: xs)).head? = x.head? := by
  cases xs with
  | nil => rfl
  | cons y t =>
    rw [joinSep]
    cases x with
    | nil => exact absurd rfl hx
    | cons c cs => rfl

theorem getLast?_joinSep (sep : Char) :
    ∀ (xs : List Str) (x : Str), xs.getLast? = some x → x ≠ [] →
      (joinSep sep xs).getLast? = x.getLast?
  | [], x, h, _ => by cases h
  | [z], x, h, hx => by
    have : z = x := by simpa using h
    subst this
    rfl
  | z :: y :: t, x, h, hx => by
    have htail : (y :: t).getLast? = some x := by
      rw [List.getLast?_cons_cons] at h
      exact h
    rw [joinSep, List.getLast?_append]
    rw [show (sep :: joinSep sep (y :: t)).getLast? =
        (joinSep sep (y :: t)).getLast?.or (some sep) from by
      rw [show sep :: joinSep sep (y :: t) = [sep] ++ joinSep sep (y :: t) from rfl,
        List.getLast?_append]
      rfl]
    rw [getLast?_joinSep sep (y :: t) x htail hx]
    cases hg : x.getLast? with
    | none => exact absurd (List.getLast?_eq_none_iff.mp hg) hx
    | some c => rfl

/-- A CSV-safe token: nonempty, trim-stable, and free of separators, quotes
and newlines.  These are the cells the naive exporter/parser round-trips. -/
def goodToken (s : Str) : Prop :=
  s ≠ [] ∧ jsTrim s = s ∧ ',' ∉ s ∧ '"' ∉ s ∧ '\n' ∉ s

instance (s : Str) : Decidable (goodToken s) := by
  unfold goodToken
  infer_instance

/-- The string payload of a string value (used to name a row's cell texts). -/
def strOfVal : Value → Str
  | .vStr s => s
  | _ => []

theorem good_head_not_ws (s : Str) (h : goodToken s) :
    ∀ c, s.head? = some c → isWS c = false := by
  intro c hc
  exact jsTrim_head s c (by rw [h.2.1]; exact hc)

theorem good_getLast_not_ws (s : Str) (h : goodToken s) :
    ∀ c, s.getLast? = some c → isWS c = false := by
  intro c hc
  exact jsTrim_getLast s c (by rw [h.2.1]; exact hc)

theorem good_strip_trim (s : Str) (h : goodToken s) :
    stripQuotes (jsTrim s) = s := by
  rw [h.2.1]
  unfold stripQuotes
  rw [List.filter_eq_self]
  intro c hc
  simp only [ne_eq, decide_eq_true_eq]
  intro hq
  exact h.2.2.2.1 (hq ▸ hc)

theorem csvCell_good (s : Str) (h : goodToken s) : csvCell (.vStr s) = s := by
  show (if ',' ∈ s ∨ '"' ∈ s then '"' :: escQuotes s ++ ['"'] else s) = s
  rw [if_neg]
  rintro (hc | hq)
  · exact h.2.2.1 hc
  · exact h.2.2.2.1 hq

theorem foldl_setKey_pairs :
    ∀ (ps : List (Str × Value)) (acc : Row),
      (ps.map Prod.fst).Nodup → (∀ p ∈ ps, lookupKey p.1 acc = none) →
      ps.foldl (fun row p => setKey row p.1 p.2) acc = acc ++ ps
  | [], acc, _, _ => by simp
  | p :: ps, acc, hnd, hfresh => by
    simp only [List.foldl_cons]
    rw [setKey_fresh acc p.1 p.2 (hfresh p (List.mem_cons_self p ps))]
    rw [foldl_setKey_pairs ps (acc ++ [(p.1, p.2)]) (by simpa using hnd.of_cons) ?_]
    · simp
    · intro q hq
      have hne : q.1 ≠ p.1 := by
        simp only [List.map_cons, List.nodup_cons] at hnd
        intro h
        exact hnd.1 (h ▸ List.mem_map_of_mem Prod.fst hq)
      rw [lookupKey_append_left _ _ _ (hfresh q (List.mem_cons_of_mem p hq))]
      simp [lookupKey, hne, Ne.symm hne]

theorem buildRow_plain (headers : List Str) (values : List Str)
    (hnd : headers.Nodup) :
    buildRow headers values =
      headers.enum.map (fun p => (p.2, Value.vStr (values.getD p.1 []))) := by
  unfold buildRow
  rw [show (fun (row : Row) (p : ℕ × Str) => setKey row p.2 (.vStr (values.getD p.1 []))) =
      (fun (row : Row) (p : ℕ × Str) =>
        setKey row ((p.2, Value.vStr (values.getD p.1 []))).1
          ((p.2, Value.vStr (values.getD p.1 []))).2) from rfl]
  rw [← List.foldl_map (fun (p : ℕ × Str) => (p.2, Value.vStr (values.getD p.1 [])))
      (fun (row : Row) (p : Str × Value) => setKey row p.1 p.2) headers.enum []]
  rw [foldl_setKey_pairs _ [] ?_ (by intro p _; rfl)]
  · simp
  · rw [show (headers.enum.map (fun p => (p.2, Value.vStr (values.getD p.1 [])))).map Prod.fst =
        headers.enum.map (fun p => p.2) from by rw [List.map_map]; rfl]
    rw [List.enum_map_snd]
    exact hnd

theorem buildRow_reconstruct (row : Row) (cells : List Str)
    (hnd : (row.map Prod.fst).Nodup)
    (hcells : row.map Prod.snd = cells.map Value.vStr) :
    buildRow (row.map Prod.fst) cells = row := by
  rw [buildRow_plain _ _ hnd]
  have hclen : cells.length = row.length := by
    have := congrArg List.length hcells
    simpa using this.symm
  apply List.ext_getElem
  · simp
  · intro i h1 h2
    have hι : i < (row.map Prod.fst).length := by simpa using h2
    have hc : i < cells.length := by rw [hclen]; exact h2
    rw [List.getElem_map, List.getElem_enum]
    have hfst : (row.map Prod.fst)[i] = row[i].1 := List.getElem_map _
    have hsnd : row[i].2 = Value.vStr cells[i] := by
      have h3 := congrArg (fun l => l[i]?) hcells
      simp only [List.getElem?_map] at h3
      have h4 := h3
      rw [List.getElem?_eq_getElem h2, List.getElem?_eq_getElem hc] at h4
      simpa using h4
    have hgetD : cells.getD i [] = cells[i] := List.getD_eq_getElem cells [] hc
    rw [hfst, hgetD, ← hsnd]

theorem map_getCell_self : ∀ (row : Row), (row.map Prod.fst).Nodup →
    (row.map Prod.fst).map (fun k => getCell row k) = row.map Prod.snd
  | [], _ => rfl
  | (k, v) :: r, hnd => by
    simp only [List.map_cons]
    have h0 : (k :: r.map Prod.fst).Nodup := by simpa using hnd
    have hk : k ∉ r.map Prod.fst := (List.nodup_cons.mp h0).1
    congr 1
    · show getCell ((k, v) :: r) k = v
      unfold getCell lookupKey
      simp
    · have h1 : ∀ k' ∈ r.map Prod.fst,
          getCell ((k, v) :: r) k' = getCell r k' := by
        intro k' hk'
        have hne : k ≠ k' := fun h => hk (h ▸ hk')
        show (match lookupKey k' ((k, v) :: r) with
          | some v => v | none => Value.vUndef) = getCell r k'
        rw [show lookupKey k' ((k, v) :: r) =
            if k = k' then some v else lookupKey k' r from rfl, if_neg hne]
        rfl
      rw [List.map_congr_left h1]
      exact map_getCell_self r (List.nodup_cons.mp h0).2

theorem joinSep_good_head (sep : Char) (x0 : Str) (rest : List Str)
    (h0 : goodToken x0) :
    ∀ c, (joinSep sep (x0 :: rest)).head? = some c → isWS c = false := by
  intro c hc
  rw [head?_joinSep sep x0 rest h0.1] at hc
  exact good_head_not_ws x0 h0 c hc

theorem joinSep_good_getLast (sep : Char) (xs : List Str) (hne : xs ≠ [])
    (hgood : ∀ x ∈ xs, goodToken x) :
    ∀ c, (joinSep sep xs).getLast? = some c → isWS c = false := by
  intro c hc
  obtain ⟨x, hx⟩ : ∃ x, xs.getLast? = some x := by
    rw [← Option.isSome_iff_exists, List.getLast?_isSome]
    exact hne
  have hmem : x ∈ xs := List.mem_of_getLast?_eq_some hx
  rw [getLast?_joinSep sep xs x hx (hgood x hmem).1] at hc
  exact good_getLast_not_ws x (hgood x hmem) c hc

theorem joinSep_good_ne_nil (sep : Char) (x0 : Str) (rest : List Str)
    (h0 : goodToken x0) : joinSep sep (x0 :: rest) ≠ [] := by
  intro h
  have := head?_joinSep sep x0 rest h0.1
  rw [h] at this
  cases hx : x0 with
  | nil => exact h0.1 hx
  | cons a t =>
    rw [hx] at this
    cases this

/-- The whole-text half of the round trip: joining good-token lines with
newlines, trimming, and splitting on newlines returns the lines. -/
theorem splitSep_trim_joinSep (lines : List Str) (l0 : Str) (lrest : List Str)
    (hlines : lines = l0 :: lrest)
    (hshape : ∀ l ∈ lines, ∃ t0 ts, l = joinSep ',' (t0 :: ts) ∧
      (∀ t ∈ t0 :: ts, goodToken t)) :
    splitSep '\n' (jsTrim (joinSep '\n' lines)) = lines := by
  subst hlines
  have hl_ne : ∀ l ∈ l0 :: lrest, l ≠ [] := by
    intro l hl
    obtain ⟨t0, ts, hjoin, hgood⟩ := hshape l hl
    rw [hjoin]
    exact joinSep_good_ne_nil ',' t0 ts (hgood t0 (List.mem_cons_self t0 ts))
  have hl_nonl : ∀ l ∈ l0 :: lrest, '\n' ∉ l := by
    intro l hl
    obtain ⟨t0, ts, hjoin, hgood⟩ := hshape l hl
    rw [hjoin]
    exact not_mem_joinSep '\n' ',' (by decide) (t0 :: ts)
      (fun t ht => (hgood t ht).2.2.2.2)
  have htrim : jsTrim (joinSep '\n' (l0 :: lrest)) = joinSep '\n' (l0 :: lrest) := by
    apply jsTrim_eq_self_of
    · intro c hc
      rw [head?_joinSep '\n' l0 lrest (hl_ne l0 (List.mem_cons_self l0 lrest))] at hc
      obtain ⟨t0, ts, hjoin, hgood⟩ := hshape l0 (List.mem_cons_self l0 lrest)
      rw [hjoin] at hc
      exact joinSep_good_head ',' t0 ts (hgood t0 (List.mem_cons_self t0 ts)) c hc
    · intro c hc
      obtain ⟨x, hx⟩ : ∃ x, (l0 :: lrest).getLast? = some x := by
        rw [← Option.isSome_iff_exists, List.getLast?_isSome]
        exact List.cons_ne_nil l0 lrest
      have hmem : x ∈ l0 :: lrest := List.mem_of_getLast?_eq_some hx
      rw [getLast?_joinSep '\n' (l0 :: lrest) x hx (hl_ne x hmem)] at hc
      obtain ⟨t0, ts, hjoin, hgood⟩ := hshape x hmem
      rw [hjoin] at hc
      exact joinSep_good_getLast ',' (t0 :: ts) (List.cons_ne_nil t0 ts) hgood c hc
  rw [htrim]
  exact splitSep_joinSep '\n' (l0 :: lrest) (List.cons_ne_nil l0 lrest) hl_nonl

/-- C2 counterexample: one row whose single cell "a,b" has no newline; the
export quotes it, but `parseCSV` splits inside the quotes and strips them,
reconstructing the cell as "a" rather than "a,b". -/
theorem claim_C2_counterexample :
    parseCSV (exportCSV [[("x".data, Value.vStr "a,b".data)]]) =
      [[("x".data, Value.vStr "a".data)]]
    ∧ ('\n' ∉ "a,b".data)
    ∧ Value.vStr "a".data ≠ Value.vStr "a,b".data := by
  refine ⟨by decide, by decide, by decide⟩

/-- C2 (amended): the round trip `parseCSV (export rows 'csv')` returns the
rows exactly, provided the row list is nonempty, all rows carry the first
row's (distinct, nonempty) key list, and every key and every cell text is a
CSV-safe token: nonempty, trim-stable, with no comma, double quote or
newline. -/
theorem claim_C2 (data : List Row) (r0 : Row) (rs : List Row)
    (hdata : data = r0 :: rs)
    (hnd : (r0.map Prod.fst).Nodup)
    (hne : r0.map Prod.fst ≠ [])
    (hkeys : ∀ row ∈ data, row.map Prod.fst = r0.map Prod.fst)
    (hktok : ∀ k ∈ r0.map Prod.fst, goodToken k)
    (hctok : ∀ row ∈ data, ∀ p ∈ row, ∃ s, p.2 = Value.vStr s ∧ goodToken s) :
    parseCSV (exportCSV data) = data := by
  subst hdata
  have hcell : ∀ row ∈ r0 :: rs, ∀ p ∈ row,
      p.2 = Value.vStr (strOfVal p.2) ∧ goodToken (strOfVal p.2) := by
    intro row hr p hp
    obtain ⟨s, hs, hg⟩ := hctok row hr p hp
    rw [hs]
    exact ⟨rfl, hg⟩
  have hrow_ne : ∀ row ∈ r0 :: rs, row ≠ [] := by
    intro row hr h
    apply hne
    rw [← hkeys row hr, h]
    rfl
  have htokens : ∀ row ∈ r0 :: rs,
      (r0.map Prod.fst).map (fun h => csvCell (getCell row h)) =
        row.map (fun p => strOfVal p.2) := by
    intro row hr
    rw [← hkeys row hr]
    rw [show (fun h => csvCell (getCell row h)) =
        (csvCell ∘ fun k => getCell row k) from rfl]
    rw [← List.map_map]
    rw [map_getCell_self row (by rw [hkeys row hr]; exact hnd)]
    rw [List.map_map]
    apply List.map_congr_left
    intro p hp
    obtain ⟨hps, hpg⟩ := hcell row hr p hp
    show csvCell p.2 = strOfVal p.2
    rw [hps, csvCell_good _ hpg]
    rfl
  have hexp : exportCSV (r0 :: rs) =
      joinSep '\n' (joinSep ',' (r0.map Prod.fst) ::
        (r0 :: rs).map (fun row => joinSep ',' (row.map (fun p => strOfVal p.2)))) := by
    show joinSep '\n' (joinSep ',' (keysOf r0) ::
        (r0 :: rs).map (fun row =>
          joinSep ',' ((keysOf r0).map (fun h => csvCell (getCell row h))))) = _
    rw [show keysOf r0 = r0.map Prod.fst from dedupKeys_of_nodup _ hnd]
    congr 1
    congr 1
    apply List.map_congr_left
    intro row hr
    rw [htokens row hr]
  have hshape : ∀ l ∈ (joinSep ',' (r0.map Prod.fst) ::
      (r0 :: rs).map (fun row => joinSep ',' (row.map (fun p => strOfVal p.2)))),
      ∃ t0 ts, l = joinSep ',' (t0 :: ts) ∧ (∀ t ∈ t0 :: ts, goodToken t) := by
    intro l hl
    rcases List.mem_cons.mp hl with h | h
    · obtain ⟨k0, kt, hks⟩ : ∃ k0 kt, r0.map Prod.fst = k0 :: kt := by
        cases hks : r0.map Prod.fst with
        | nil => exact absurd hks hne
        | cons a t => exact ⟨a, t, rfl⟩
      refine ⟨k0, kt, by rw [h, hks], ?_⟩
      rw [← hks]
      exact hktok
    · rcases List.mem_map.mp h with ⟨row, hr, hrow⟩
      obtain ⟨p0, pt, hroweq⟩ : ∃ p0 pt, row = p0 :: pt := by
        cases hre : row with
        | nil => exact absurd hre (hrow_ne row hr)
        | cons a t => exact ⟨a, t, rfl⟩
      refine ⟨strOfVal p0.2, pt.map (fun p => strOfVal p.2), ?_, ?_⟩
      · rw [← hrow, hroweq]
        rfl
      · intro t ht
        have hmem : t ∈ row.map (fun p => strOfVal p.2) := by
          rw [hroweq]
          exact ht
        rcases List.mem_map.mp hmem with ⟨p, hp, hpt⟩
        rw [← hpt]
        exact (hcell row hr p hp).2
  have hsplit := splitSep_trim_joinSep _ _ _ rfl hshape
  rw [hexp]
  unfold parseCSV
  rw [hsplit]
  show ((r0 :: rs).map (fun row => joinSep ',' (row.map (fun p => strOfVal p.2)))).map
      (fun line => buildRow
        ((splitSep ',' (joinSep ',' (r0.map Prod.fst))).map
          (fun h => stripQuotes (jsTrim h)))
        ((splitSep ',' line).map (fun v => stripQuotes (jsTrim v)))) = r0 :: rs
  rw [splitSep_joinSep ',' (r0.map Prod.fst) hne
    (fun k hk => (hktok k hk).2.2.1)]
  have hmapid : (r0.map Prod.fst).map (fun h => stripQuotes (jsTrim h)) =
      r0.map Prod.fst := by
    have h2 : (r0.map Prod.fst).map (fun h => stripQuotes (jsTrim h)) =
        (r0.map Prod.fst).map (fun k => k) :=
      List.map_congr_left (fun k hk => good_strip_trim k (hktok k hk))
    rw [h2]
    exact List.map_id' _
  rw [hmapid]
  rw [List.map_map]
  have hrowid : ∀ row ∈ r0 :: rs,
      ((fun line => buildRow (r0.map Prod.fst)
          ((splitSep ',' line).map (fun v => stripQuotes (jsTrim v)))) ∘
        (fun row => joinSep ',' (row.map (fun p => strOfVal p.2)))) row = row := by
    intro row hr
    show buildRow (r0.map Prod.fst)
        ((splitSep ',' (joinSep ',' (row.map (fun p => strOfVal p.2)))).map
          (fun v => stripQuotes (jsTrim v))) = row
    have hcne : row.map (fun p => strOfVal p.2) ≠ [] := by
      intro h
      exact hrow_ne row hr (List.map_eq_nil_iff.mp h)
    rw [splitSep_joinSep ',' _ hcne ?_]
    · have hcid : (row.map (fun p => strOfVal p.2)).map
          (fun v => stripQuotes (jsTrim v)) = row.map (fun p => strOfVal p.2) := by
        have h2 : (row.map (fun p => strOfVal p.2)).map
            (fun v => stripQuotes (jsTrim v)) =
            (row.map (fun p => strOfVal p.2)).map (fun v => v) := by
          apply List.map_congr_left
          intro t ht
          rcases List.mem_map.mp ht with ⟨p, hp, hpt⟩
          rw [← hpt]
          exact good_strip_trim _ (hcell row hr p hp).2
        rw [h2]
        exact List.map_id' _
      rw [hcid]
      rw [← hkeys row hr]
      apply buildRow_reconstruct row _ (by rw [hkeys row hr]; exact hnd)
      rw [List.map_map]
      apply List.map_congr_left
      intro p hp
      exact (hcell row hr p hp).1
    · intro t ht
      rcases List.mem_map.mp ht with ⟨p, hp, hpt⟩
      rw [← hpt]
      exact (hcell row hr p hp).2.2.2.1
  have hfin : (r0 :: rs).map
      ((fun line => buildRow (r0.map Prod.fst)
          ((splitSep ',' line).map (fun v => stripQuotes (jsTrim v)))) ∘
        (fun row => joinSep ',' (row.map (fun p => strOfVal p.2)))) =
      (r0 :: rs).map (fun row => row) :=
    List.map_congr_left hrowid
  rw [hfin]
  exact List.map_id' _

theorem claim_C2_witness :
    parseCSV (exportCSV
      [[("x".data, Value.vStr "ab".data)], [("x".data, Value.vStr "cd".data)]]) =
      [[("x".data, Value.vStr "ab".data)], [("x".data, Value.vStr "cd".data)]] :=
  claim_C2 _ [("x".data, Value.vStr "ab".data)] [[("x".data, Value.vStr "cd".data)]] rfl
    (by decide) (by decide) (by decide) (by decide)
    (by
      intro row hrow p hp
      rcases List.mem_cons.mp hrow with h | h
      · subst h
        have hps := List.mem_singleton.mp hp
        subst hps
        exact ⟨"ab".data, rfl, by decide⟩
      · have h2 := List.mem_singleton.mp h
        subst h2
        have hps := List.mem_singleton.mp hp
        subst hps
        exact ⟨"cd".data, rfl, by decide⟩)

/-! Lemmas for sort stability (C7). -/

theorem lexCompare_antisym : ∀ (a b : Str), lexCompare a b = -(lexCompare b a)
  | [], [] => by simp [lexCompare]
  | [], _ :: _ => by simp [lexCompare]
  | _ :: _, [] => by simp [lexCompare]
  | a :: as, b :: bs => by
    by_cases h : a = b
    · rw [lexCompare, lexCompare, if_pos h, if_pos h.symm]
      exact lexCompare_antisym as bs
    · rcases lt_trichotomy a b with hlt | heq | hgt
      · rw [lexCompare, lexCompare, if_neg h, if_pos hlt, if_neg (Ne.symm h),
          if_neg (not_lt_of_gt hlt)]
      · exact absurd heq h
      · rw [lexCompare, lexCompare, if_neg h, if_neg (not_lt_of_gt hgt),
          if_neg (Ne.symm h), if_pos hgt]
        norm_num

theorem lexCompare_eq_zero : ∀ (a b : Str), lexCompare a b = 0 ↔ a = b
  | [], [] => by simp [lexCompare]
  | [], _ :: _ => by simp [lexCompare]
  | _ :: _, [] => by simp [lexCompare]
  | a :: as, b :: bs => by
    by_cases h : a = b
    · rw [lexCompare, if_pos h]
      rw [lexCompare_eq_zero as bs]
      constructor
      · intro ht; rw [h, ht]
      · intro ht
        injection ht with _ h2
    · rw [lexCompare, if_neg h]
      constructor
      · intro ht
        split at ht <;> norm_num at ht
      · intro ht
        injection ht with h1 _
        exact absurd h1 h

theorem lexCompare_lt_trans :
    ∀ (a b c : Str), lexCompare a b < 0 → lexCompare b c < 0 → lexCompare a c < 0
  | [], [], _, hab, _ => by
    rw [lexCompare] at hab
    exact absurd hab (by norm_num)
  | [], _ :: _, [], _, hbc => by
    rw [lexCompare] at hbc
    exact absurd hbc (by norm_num)
  | [], _ :: _, _ :: _, _, _ => by
    rw [lexCompare]
    norm_num
  | _ :: _, [], _, hab, _ => by
    rw [lexCompare] at hab
    exact absurd hab (by norm_num)
  | _ :: _, _ :: _, [], _, hbc => by
    rw [lexCompare] at hbc
    exact absurd hbc (by norm_num)
  | a0 :: at', b0 :: bt, c0 :: ct, hab, hbc => by
    by_cases hab0 : a0 = b0
    · subst hab0
      rw [lexCompare, if_pos rfl] at hab
      by_cases hbc0 : a0 = c0
      · subst hbc0
        rw [lexCompare, if_pos rfl] at hbc
        rw [lexCompare, if_pos rfl]
        exact lexCompare_lt_trans at' bt ct hab hbc
      · rw [lexCompare, if_neg hbc0] at hbc
        rw [lexCompare, if_neg hbc0]
        split at hbc <;> rename_i hlt
        · rw [if_pos hlt]
          norm_num
        · norm_num at hbc
    · rw [lexCompare, if_neg hab0] at hab
      have halt : a0 < b0 := by
        by_cases hlt : a0 < b0
        · exact hlt
        · rw [if_neg hlt] at hab; norm_num at hab
      by_cases hbc0 : b0 = c0
      · subst hbc0
        rw [lexCompare, if_neg hab0, if_pos halt]
        norm_num
      · rw [lexCompare, if_neg hbc0] at hbc
        have hblt : b0 < c0 := by
          by_cases hlt : b0 < c0
          · exact hlt
          · rw [if_neg hlt] at hbc; norm_num at hbc
        have hac : a0 < c0 := lt_trans halt hblt
        rw [lexCompare, if_neg (ne_of_lt hac), if_pos hac]
        norm_num

/-- Comparison of two sort keys: numeric difference on numeric keys,
lexicographic sign on string keys (mixed shapes never arise for keys of the
same condition). -/
def keyCompare : (ℚ ⊕ Str) → (ℚ ⊕ Str) → ℚ
  | .inl x, .inl y => x - y
  | .inr s, .inr t => lexCompare s t
  | .inl _, .inr _ => 0
  | .inr _, .inl _ => 0

/-- The sort key a cell contributes under a declared field type, with
unparsable numeric and date cells read as key `0`. -/
def typedKey : Option FType → Str → Row → ℚ ⊕ Str := fun oty fname r =>
  match oty with
  | some .number => .inl ((jsParseFloat (getCell r fname)).getD 0)
  | some .date => .inl (((jsParseDate (getCell r fname)).map dateKey).getD 0)
  | _ => .inr (jsToString (getCell r fname))

def fieldKeyT (fields : List FieldInfo) (c : SortCondition) (r : Row) : ℚ ⊕ Str :=
  typedKey ((fields.find? (fun f => f.name = c.field)).map FieldInfo.type) c.field r

/-- Total per-condition field comparison: unparsable cells read as key `0`.
Agrees with `fieldCompare` whenever the compared cells parse. -/
def fieldCompareT (fields : List FieldInfo) (c : SortCondition) (a b : Row) : ℚ :=
  keyCompare (fieldKeyT fields c a) (fieldKeyT fields c b)

/-- Parse obligation a row must meet for its cell to compare without `NaN`
under a condition: numeric fields parse as numbers, date fields as dates. -/
def typedOK : Option FType → Str → Row → Prop := fun oty fname r =>
  match oty with
  | some .number => (jsParseFloat (getCell r fname)).isSome = true
  | some .date => (jsParseDate (getCell r fname)).isSome = true
  | _ => True

def sortFieldOK (fields : List FieldInfo) (c : SortCondition) (r : Row) : Prop :=
  typedOK ((fields.find? (fun f => f.name = c.field)).map FieldInfo.type) c.field r

/-- Direction-adjusted total comparison. -/
def condCompareT (fields : List FieldInfo) (c : SortCondition) (a b : Row) : ℚ :=
  match c.dir with
  | .asc => fieldCompareT fields c a b
  | .desc => -(fieldCompareT fields c a b)

/-- Total version of the row comparator. -/
def rowCompareT (fields : List FieldInfo) : List SortCondition → Row → Row → ℚ
  | [], _, _ => 0
  | c :: rest, a, b =>
    if fieldCompareT fields c a b = 0 then rowCompareT fields rest a b
    else condCompareT fields c a b

theorem keyCompare_antisym (k1 k2 : ℚ ⊕ Str) : keyCompare k1 k2 = -(keyCompare k2 k1) := by
  cases k1 <;> cases k2 <;> simp [keyCompare]
  exact lexCompare_antisym _ _

theorem keyCompare_lt_trans (k1 k2 k3 : ℚ ⊕ Str)
    (h12 : keyCompare k1 k2 < 0) (h23 : keyCompare k2 k3 < 0) :
    keyCompare k1 k3 < 0 := by
  cases k1 <;> cases k2 <;> cases k3 <;> simp [keyCompare] at *
  · linarith
  · exact lexCompare_lt_trans _ _ _ h12 h23

theorem keyCompare_eq_of_zero (k1 k2 : ℚ ⊕ Str)
    (hs : k1.isLeft = k2.isLeft) (h : keyCompare k1 k2 = 0) : k1 = k2 := by
  cases k1 <;> cases k2 <;> simp [keyCompare] at *
  · linarith
  · exact (lexCompare_eq_zero _ _).mp h

theorem fieldKeyT_sameShape (fields : List FieldInfo) (c : SortCondition) (a b : Row) :
    (fieldKeyT fields c a).isLeft = (fieldKeyT fields c b).isLeft := by
  unfold fieldKeyT typedKey
  cases ((fields.find? (fun f => f.name = c.field)).map FieldInfo.type) with
  | none => rfl
  | some t => cases t <;> rfl

theorem fieldKeyT_eq_of_zero (fields : List FieldInfo) (c : SortCondition) (a b : Row)
    (h : fieldCompareT fields c a b = 0) : fieldKeyT fields c a = fieldKeyT fields c b :=
  keyCompare_eq_of_zero _ _ (fieldKeyT_sameShape fields c a b) h

theorem fieldCompareT_antisym (fields : List FieldInfo) (c : SortCondition) (a b : Row) :
    fieldCompareT fields c a b = -(fieldCompareT fields c b a) :=
  keyCompare_antisym _ _

theorem condCompareT_antisym (fields : List FieldInfo) (c : SortCondition) (a b : Row) :
    condCompareT fields c a b = -(condCompareT fields c b a) := by
  obtain ⟨cf, cd⟩ := c
  cases cd
  · exact fieldCompareT_antisym fields ⟨cf, .asc⟩ a b
  · show -(fieldCompareT fields ⟨cf, .desc⟩ a b) = -(-(fieldCompareT fields ⟨cf, .desc⟩ b a))
    rw [fieldCompareT_antisym fields ⟨cf, .desc⟩ a b]

theorem condCompareT_lt_trans (fields : List FieldInfo) (c : SortCondition) (a b r : Row)
    (h1 : condCompareT fields c a b < 0) (h2 : condCompareT fields c b r < 0) :
    condCompareT fields c a r < 0 := by
  obtain ⟨cf, cd⟩ := c
  cases cd
  · exact keyCompare_lt_trans _ _ _ h1 h2
  · have h1' : -(keyCompare (fieldKeyT fields ⟨cf, .desc⟩ a) (fieldKeyT fields ⟨cf, .desc⟩ b)) <
        0 := h1
    have h2' : -(keyCompare (fieldKeyT fields ⟨cf, .desc⟩ b) (fieldKeyT fields ⟨cf, .desc⟩ r)) <
        0 := h2
    show -(keyCompare (fieldKeyT fields ⟨cf, .desc⟩ a) (fieldKeyT fields ⟨cf, .desc⟩ r)) < 0
    have hba : keyCompare (fieldKeyT fields ⟨cf, .desc⟩ b) (fieldKeyT fields ⟨cf, .desc⟩ a) <
        0 := by
      rw [keyCompare_antisym]
      linarith
    have hrb : keyCompare (fieldKeyT fields ⟨cf, .desc⟩ r) (fieldKeyT fields ⟨cf, .desc⟩ b) <
        0 := by
      rw [keyCompare_antisym]
      linarith
    have hra := keyCompare_lt_trans _ _ _ hrb hba
    rw [keyCompare_antisym] at hra
    linarith

theorem condCompareT_congr_left (fields : List FieldInfo) (c : SortCondition) (a b r : Row)
    (h : fieldKeyT fields c a = fieldKeyT fields c b) :
    condCompareT fields c a r = condCompareT fields c b r := by
  unfold condCompareT fieldCompareT
  rw [h]

theorem condCompareT_congr_right (fields : List FieldInfo) (c : SortCondition) (a b r : Row)
    (h : fieldKeyT fields c a = fieldKeyT fields c b) :
    condCompareT fields c r a = condCompareT fields c r b := by
  unfold condCompareT fieldCompareT
  rw [h]

theorem condCompareT_ne_zero (fields : List FieldInfo) (c : SortCondition) (a b : Row)
    (h : fieldCompareT fields c a b ≠ 0) : condCompareT fields c a b ≠ 0 := by
  obtain ⟨cf, cd⟩ := c
  cases cd
  · exact h
  · show ¬ -(fieldCompareT fields ⟨cf, .desc⟩ a b) = 0
    simpa using h

theorem rowCompareT_antisym (fields : List FieldInfo) (conds : List SortCondition) (a b : Row) :
    rowCompareT fields conds a b = -(rowCompareT fields conds b a) := by
  induction conds with
  | nil => simp [rowCompareT]
  | cons c rest ih =>
    simp only [rowCompareT]
    by_cases h : fieldCompareT fields c a b = 0
    · have h' : fieldCompareT fields c b a = 0 := by
        have ha := fieldCompareT_antisym fields c a b
        rw [ha] at h
        linarith
      rw [if_pos h, if_pos h']
      exact ih
    · have h' : ¬ fieldCompareT fields c b a = 0 := by
        intro hz
        apply h
        rw [fieldCompareT_antisym, hz, neg_zero]
      rw [if_neg h, if_neg h']
      exact condCompareT_antisym fields c a b

theorem rowCompareT_keys_of_zero (fields : List FieldInfo) (conds : List SortCondition)
    (a b : Row) (h : rowCompareT fields conds a b = 0) :
    ∀ c ∈ conds, fieldKeyT fields c a = fieldKeyT fields c b := by
  induction conds with
  | nil =>
    intro c hc
    cases hc
  | cons c rest ih =>
    simp only [rowCompareT] at h
    by_cases hf : fieldCompareT fields c a b = 0
    · rw [if_pos hf] at h
      intro d hd
      rcases List.mem_cons.mp hd with rfl | hd'
      · exact fieldKeyT_eq_of_zero fields d a b hf
      · exact ih h d hd'
    · rw [if_neg hf] at h
      exact absurd h (condCompareT_ne_zero fields c a b hf)

theorem rowCompareT_zero_of (fields : List FieldInfo) (conds : List SortCondition) (a b : Row)
    (h : ∀ c ∈ conds, fieldCompareT fields c a b = 0) :
    rowCompareT fields conds a b = 0 := by
  induction conds with
  | nil => rfl
  | cons c rest ih =>
    simp only [rowCompareT]
    rw [if_pos (h c (List.mem_cons_self c rest))]
    exact ih (fun d hd => h d (List.mem_cons_of_mem c hd))

theorem rowCompareT_congr_left (fields : List FieldInfo) (conds : List SortCondition)
    (a b r : Row) (h : ∀ c ∈ conds, fieldKeyT fields c a = fieldKeyT fields c b) :
    rowCompareT fields conds a r = rowCompareT fields conds b r := by
  induction conds with
  | nil => rfl
  | cons c rest ih =>
    simp only [rowCompareT]
    have hk := h c (List.mem_cons_self c rest)
    have hf : fieldCompareT fields c a r = fieldCompareT fields c b r := by
      unfold fieldCompareT
      rw [hk]
    rw [hf, ih (fun d hd => h d (List.mem_cons_of_mem c hd)),
      condCompareT_congr_left fields c a b r hk]

theorem rowCompareT_congr_right (fields : List FieldInfo) (conds : List SortCondition)
    (a b r : Row) (h : ∀ c ∈ conds, fieldKeyT fields c a = fieldKeyT fields c b) :
    rowCompareT fields conds r a = rowCompareT fields conds r b := by
  induction conds with
  | nil => rfl
  | cons c rest ih =>
    simp only [rowCompareT]
    have hk := h c (List.mem_cons_self c rest)
    have hf : fieldCompareT fields c r a = fieldCompareT fields c r b := by
      unfold fieldCompareT
      rw [hk]
    rw [hf, ih (fun d hd => h d (List.mem_cons_of_mem c hd)),
      condCompareT_congr_right fields c a b r hk]

theorem rowCompareT_lt_trans (fields : List FieldInfo) (conds : List SortCondition)
    (x y z : Row) (h1 : rowCompareT fields conds x y < 0)
    (h2 : rowCompareT fields conds y z < 0) :
    rowCompareT fields conds x z < 0 := by
  induction conds with
  | nil => simp [rowCompareT] at h1
  | cons c rest ih =>
    simp only [rowCompareT] at h1 h2 ⊢
    by_cases hxy : fieldCompareT fields c x y = 0
    · rw [if_pos hxy] at h1
      have hk := fieldKeyT_eq_of_zero fields c x y hxy
      by_cases hyz : fieldCompareT fields c y z = 0
      · rw [if_pos hyz] at h2
        have hxz : fieldCompareT fields c x z = 0 := by
          unfold fieldCompareT
          rw [hk]
          exact hyz
        rw [if_pos hxz]
        exact ih h1 h2
      · rw [if_neg hyz] at h2
        have hxz : ¬ fieldCompareT fields c x z = 0 := by
          intro hz
          apply hyz
          unfold fieldCompareT at hz ⊢
          rw [← hk]
          exact hz
        rw [if_neg hxz]
        rw [condCompareT_congr_left fields c x y z hk]
        exact h2
    · rw [if_neg hxy] at h1
      by_cases hyz : fieldCompareT fields c y z = 0
      · have hk := fieldKeyT_eq_of_zero fields c y z hyz
        have hxz : ¬ fieldCompareT fields c x z = 0 := by
          intro hz
          apply hxy
          unfold fieldCompareT at hz ⊢
          rw [hk]
          exact hz
        rw [if_neg hxz]
        rw [condCompareT_congr_right fields c y z x hk] at h1
        exact h1
      · rw [if_neg hyz] at h2
        have hxz : ¬ fieldCompareT fields c x z = 0 := by
          intro hz
          have hk := fieldKeyT_eq_of_zero fields c x z hz
          rw [condCompareT_congr_left fields c x z y hk] at h1
          rw [condCompareT_antisym fields c z y] at h1
          linarith
        rw [if_neg hxz]
        exact condCompareT_lt_trans fields c x y z h1 h2

theorem rowCompareT_le_trans (fields : List FieldInfo) (conds : List SortCondition)
    (x y z : Row) (h1 : rowCompareT fields conds x y ≤ 0)
    (h2 : rowCompareT fields conds y z ≤ 0) :
    rowCompareT fields conds x z ≤ 0 := by
  rcases lt_or_eq_of_le h1 with hl1 | he1
  · rcases lt_or_eq_of_le h2 with hl2 | he2
    · exact le_of_lt (rowCompareT_lt_trans fields conds x y z hl1 hl2)
    · have hk := rowCompareT_keys_of_zero fields conds y z he2
      rw [← rowCompareT_congr_right fields conds y z x hk]
      exact le_of_lt hl1
  · have hk := rowCompareT_keys_of_zero fields conds x y he1
    rw [rowCompareT_congr_left fields conds x y z hk]
    exact h2

theorem rowCompareT_total (fields : List FieldInfo) (conds : List SortCondition) (x y : Row) :
    rowCompareT fields conds x y ≤ 0 ∨ rowCompareT fields conds y x ≤ 0 := by
  by_cases h : rowCompareT fields conds x y ≤ 0
  · exact Or.inl h
  · right
    rw [rowCompareT_antisym]
    have := not_le.mp h
    linarith

theorem fieldCompare_eq_T (fields : List FieldInfo) (c : SortCondition) (x y : Row)
    (hx : sortFieldOK fields c x) (hy : sortFieldOK fields c y) :
    fieldCompare fields c x y = some (fieldCompareT fields c x y) := by
  unfold sortFieldOK typedOK at hx hy
  unfold fieldCompare fieldCompareT fieldKeyT typedKey
  cases hty : (fields.find? (fun f => f.name = c.field)).map FieldInfo.type with
  | none => rfl
  | some t =>
    rw [hty] at hx hy
    cases t with
    | number =>
      have hx' : (jsParseFloat (getCell x c.field)).isSome = true := hx
      have hy' : (jsParseFloat (getCell y c.field)).isSome = true := hy
      obtain ⟨xa, hxa⟩ := Option.isSome_iff_exists.mp hx'
      obtain ⟨ya, hya⟩ := Option.isSome_iff_exists.mp hy'
      rw [hxa, hya]
      rfl
    | date =>
      have hx' : (jsParseDate (getCell x c.field)).isSome = true := hx
      have hy' : (jsParseDate (getCell y c.field)).isSome = true := hy
      obtain ⟨xd, hxd⟩ := Option.isSome_iff_exists.mp hx'
      obtain ⟨yd, hyd⟩ := Option.isSome_iff_exists.mp hy'
      rw [hxd, hyd]
      rfl
    | string => rfl

theorem rowCompare_eq_T (fields : List FieldInfo) (conds : List SortCondition) (x y : Row)
    (hx : ∀ c ∈ conds, sortFieldOK fields c x) (hy : ∀ c ∈ conds, sortFieldOK fields c y) :
    rowCompare fields conds x y = rowCompareT fields conds x y := by
  induction conds with
  | nil => rfl
  | cons c rest ih =>
    simp only [rowCompare, rowCompareT]
    rw [fieldCompare_eq_T fields c x y (hx c (List.mem_cons_self c rest))
      (hy c (List.mem_cons_self c rest))]
    show (if fieldCompareT fields c x y = 0 then rowCompare fields rest x y
      else condCompareT fields c x y) =
      (if fieldCompareT fields c x y = 0 then rowCompareT fields rest x y
      else condCompareT fields c x y)
    by_cases h : fieldCompareT fields c x y = 0
    · simp only [if_pos h]
      exact ih (fun d hd => hx d (List.mem_cons_of_mem c hd))
        (fun d hd => hy d (List.mem_cons_of_mem c hd))
    · simp only [if_neg h]

theorem mergeSort_congr_on (r s : Row → Row → Bool) (l : List Row)
    (h : ∀ a ∈ l, ∀ b ∈ l, r a b = s a b) : l.mergeSort r = l.mergeSort s := by
  have hmap := @List.map_mergeSort Row Row r s id l ?_
  · simpa using hmap
  · intro a ha b hb
    exact h a ha b hb

/-- C7 (amended): `sort(rows, conditions)` is stable on any dataset in which
every sorted field compares without `NaN` — for each condition, every row's
cell parses as a number when the field is typed `number` and as a date when
typed `date` (string-typed and undeclared fields always compare cleanly).
Under that proviso, any two rows tied on every condition keep their input
order. Without it the comparator is inconsistent (`NaN` comparisons are
coerced to `+0`), the ECMAScript sort order is implementation-defined, and
the model exhibits a tied pair that flips. -/
theorem claim_C7 (fields : List FieldInfo) (data : List Row) (conds : List SortCondition)
    (hok : ∀ c ∈ conds, ∀ r ∈ data, sortFieldOK fields c r)
    (a b : Row) (hsub : List.Sublist [a, b] data)
    (htie : ∀ c ∈ conds, fieldCompare fields c a b = some 0) :
    List.Sublist [a, b] (sortRows fields data conds) := by
  have ha : a ∈ data := hsub.subset (by simp)
  have hb : b ∈ data := hsub.subset (by simp)
  have hswap : sortRows fields data conds
      = data.mergeSort (fun x y => rowCompareT fields conds x y ≤ 0) := by
    unfold sortRows
    apply mergeSort_congr_on
    intro x hx y hy
    simp only [decide_eq_decide]
    rw [rowCompare_eq_T fields conds x y (fun c hc => hok c hc x hx)
      (fun c hc => hok c hc y hy)]
  rw [hswap]
  refine List.pair_sublist_mergeSort ?_ ?_ ?_ hsub
  · intro x y z h1 h2
    simp only [decide_eq_true_eq] at h1 h2 ⊢
    exact rowCompareT_le_trans fields conds x y z h1 h2
  · intro x y
    simp only [Bool.or_eq_true, decide_eq_true_eq]
    exact rowCompareT_total fields conds x y
  · simp only [decide_eq_true_eq]
    have hz : rowCompareT fields conds a b = 0 := by
      apply rowCompareT_zero_of
      intro c hc
      have h1 := fieldCompare_eq_T fields c a b (hok c hc a ha) (hok c hc b hb)
      have h2 := htie c hc
      rw [h1] at h2
      exact Option.some_injective ℚ h2
    rw [hz]

def row7a : Row := [("x".data, Value.vStr "2".data), ("i".data, Value.vStr "a".data)]

def row7b : Row := [("x".data, Value.vStr "1".data), ("i".data, Value.vStr "b".data)]

def row7c : Row := [("x".data, Value.vStr "x".data), ("i".data, Value.vStr "c".data)]

def row7d : Row := [("x".data, Value.vStr "1".data), ("i".data, Value.vStr "d".data)]

def row7e : Row := [("x".data, Value.vStr "1".data), ("i".data, Value.vStr "e".data)]

def row7f : Row := [("x".data, Value.vStr "1".data), ("i".data, Value.vStr "f".data)]

def row7g : Row := [("x".data, Value.vStr "1".data), ("i".data, Value.vStr "g".data)]

def flds7 : List FieldInfo := [⟨"x".data, FType.number⟩]

def conds7 : List SortCondition := [⟨"x".data, SortDir.asc⟩]

def data7 : List Row := [row7a, row7b, row7c, row7d, row7e, row7f, row7g]

/-- C7 as stated is false: on a numeric sort field containing one
unparsable cell (`"x"`, which compares as `NaN`, coerced to `+0`), the
rows `row7d` and `row7e` tie on every condition and appear in input
order in `data7`, yet the sort emits them in the opposite order. -/
theorem claim_C7_counterexample :
    List.Sublist [row7d, row7e] data7 ∧
    (∀ c ∈ conds7, fieldCompare flds7 c row7d row7e = some 0) ∧
    ¬ List.Sublist [row7d, row7e] (sortRows flds7 data7 conds7) := by
  refine ⟨?_, ?_, ?_⟩
  · decide
  · intro c hc
    unfold conds7 at hc
    rw [List.mem_singleton] at hc
    subst hc
    with_unfolding_all rfl
  · have hout : sortRows flds7 data7 conds7
        = [row7b, row7e, row7f, row7g, row7a, row7c, row7d] := by
      with_unfolding_all rfl
    rw [hout]
    decide

/-- Witness for C7: a two-row dataset whose numeric sort field parses on
every row; the tied pair keeps its input order in the output. -/
theorem claim_C7_witness :
    (∀ c ∈ conds7, ∀ r ∈ [row7d, row7e], sortFieldOK flds7 c r) ∧
    (∀ c ∈ conds7, fieldCompare flds7 c row7d row7e = some 0) ∧
    List.Sublist [row7d, row7e] (sortRows flds7 [row7d, row7e] conds7) := by
  have hok : ∀ c ∈ conds7, ∀ r ∈ [row7d, row7e], sortFieldOK flds7 c r := by
    intro c hc r hr
    unfold conds7 at hc
    rw [List.mem_singleton] at hc
    subst hc
    rcases List.mem_cons.mp hr with rfl | hr'
    · with_unfolding_all rfl
    · rw [List.mem_singleton] at hr'
      subst hr'
      with_unfolding_all rfl
  have htie : ∀ c ∈ conds7, fieldCompare flds7 c row7d row7e = some 0 := by
    intro c hc
    unfold conds7 at hc
    rw [List.mem_singleton] at hc
    subst hc
    with_unfolding_all rfl
  have hsub : List.Sublist [row7d, row7e] [row7d, row7e] := List.Sublist.refl _
  exact ⟨hok, htie, claim_C7 flds7 [row7d, row7e] conds7 hok row7d row7e hsub htie⟩
